import Mathlib

/-!
Verification of the @synet/credential issuance/verification engine.

This development shallowly embeds the TypeScript sources (`src/key.ts`,
`src/credential.ts`) in Lean.  JavaScript objects are modelled as ordered
association lists, JSON values as an inductive `Json` type (numbers are
modelled as integers: every number the engine produces is an integer epoch
value), and the platform primitives used by the sources
(`JSON.stringify`/`JSON.parse`, `Buffer` base64url, `String.split`,
`Date` parsing) are implemented executably and proved to satisfy the
round-trip properties the engine relies on.
-/

set_option maxHeartbeats 1000000
set_option maxRecDepth 100000

namespace Synet

/-! ## Characters and small helpers -/

/-- The double-quote character. -/
def quoteC : Char := Char.ofNat 34

/-- The backslash character. -/
def bslashC : Char := Char.ofNat 92

/-- The opening curly bracket character. -/
def lbraceC : Char := Char.ofNat 123

/-- The closing curly bracket character. -/
def rbraceC : Char := Char.ofNat 125

theorem char_toNat_ofNat (n : Nat) (h : n < 55296) : (Char.ofNat n).toNat = n := by
  have hv : n.isValidChar := Or.inl h
  simp [Char.ofNat, hv, Char.toNat, Char.ofNatAux, UInt32.toNat, UInt32.ofNat']

theorem char_ne_of_toNat {a b : Char} (h : a.toNat ≠ b.toNat) : a ≠ b :=
  fun he => h (he ▸ rfl)

/-- Little-endian decimal digits of `n`, with explicit fuel (so that the
definition is structurally recursive and kernel-computable). -/
def natDigitsLE : Nat → Nat → List Nat
  | 0, _ => []
  | _ + 1, 0 => []
  | f + 1, n + 1 => ((n + 1) % 10) :: natDigitsLE f ((n + 1) / 10)

theorem natDigitsLE_eq_digits : ∀ fuel n, n ≤ fuel → natDigitsLE fuel n = Nat.digits 10 n := by
  intro fuel
  induction fuel with
  | zero =>
    intro n h
    have : n = 0 := by omega
    subst this
    simp [natDigitsLE]
  | succ f ih =>
    intro n h
    cases n with
    | zero => simp [natDigitsLE]
    | succ m =>
      have hdiv : (m + 1) / 10 ≤ f := by
        have := Nat.div_lt_self (Nat.succ_pos m) (by omega : 1 < 10)
        omega
      rw [natDigitsLE, ih _ hdiv, Nat.digits_def' (by omega : 1 < 10) (Nat.succ_pos m)]

/-- Decimal digit characters of a natural number (big-endian, empty for zero). -/
def natDigitsChars (n : Nat) : List Char :=
  (natDigitsLE n n).reverse.map (fun d => Char.ofNat (48 + d))

/-- Decimal representation of a natural number, as JavaScript prints it. -/
def natChars (n : Nat) : List Char :=
  if n = 0 then [Char.ofNat 48] else natDigitsChars n

/-- Decimal representation of an integer, as JavaScript prints it. -/
def intChars (i : Int) : List Char :=
  if i < 0 then Char.ofNat 45 :: natChars i.natAbs else natChars i.natAbs

/-- Parse a big-endian list of decimal digit characters. -/
def decimalToNat (cs : List Char) : Nat :=
  cs.foldl (fun a c => 10 * a + (c.toNat - 48)) 0

theorem natDigitsChars_eq (n : Nat) :
    natDigitsChars n = (Nat.digits 10 n).reverse.map (fun d => Char.ofNat (48 + d)) := by
  rw [natDigitsChars, natDigitsLE_eq_digits n n le_rfl]

theorem decimalToNat_aux (ds : List Nat) (a : Nat) (h : ∀ d ∈ ds, d < 10) :
    List.foldl (fun x c => 10 * x + (c.toNat - 48)) a
      (ds.reverse.map (fun d => Char.ofNat (48 + d)))
      = a * 10 ^ ds.length + Nat.ofDigits 10 ds := by
  induction ds generalizing a with
  | nil => simp
  | cons d tl ih =>
    have hd : d < 10 := h d (List.mem_cons_self d tl)
    have htl : ∀ x ∈ tl, x < 10 := fun x hx => h x (List.mem_cons_of_mem d hx)
    simp only [List.reverse_cons, List.map_append, List.foldl_append, List.map_cons,
      List.map_nil, List.foldl_cons, List.foldl_nil]
    rw [ih _ htl]
    have hchar : (Char.ofNat (48 + d)).toNat = 48 + d := char_toNat_ofNat _ (by omega)
    rw [hchar]
    simp only [Nat.ofDigits_cons, List.length_cons]
    ring_nf
    omega

theorem decimalToNat_natChars (n : Nat) : decimalToNat (natChars n) = n := by
  by_cases h : n = 0
  · subst h
    simp [natChars, decimalToNat, char_toNat_ofNat 48 (by omega)]
  · have hdig : ∀ d ∈ Nat.digits 10 n, d < 10 := fun d hd =>
      Nat.digits_lt_base (by omega) hd
    simp only [natChars, h, if_false, natDigitsChars_eq, decimalToNat]
    rw [decimalToNat_aux _ 0 hdig]
    simp [Nat.ofDigits_digits]

/-- A decimal digit character test. -/
def isDigitC (c : Char) : Bool := 48 ≤ c.toNat && c.toNat ≤ 57

theorem natChars_digits (n : Nat) : ∀ c ∈ natChars n, isDigitC c = true := by
  intro c hc
  by_cases h : n = 0
  · subst h
    simp [natChars] at hc
    subst hc
    simp [isDigitC, char_toNat_ofNat 48 (by omega)]
  · simp only [natChars, h, if_false, natDigitsChars_eq, List.mem_map] at hc
    obtain ⟨d, hd, rfl⟩ := hc
    have : d < 10 := Nat.digits_lt_base (by omega) (List.mem_reverse.mp hd)
    simp [isDigitC, char_toNat_ofNat (48 + d) (by omega)]
    omega

theorem natChars_ne_nil (n : Nat) : natChars n ≠ [] := by
  by_cases h : n = 0
  · simp [natChars, h]
  · simp only [natChars, h, if_false, natDigitsChars_eq, ne_eq, List.map_eq_nil_iff,
      List.reverse_eq_nil_iff]
    exact Nat.digits_ne_nil_iff_ne_zero.mpr h

/-! ## JSON values

`Json` models the JavaScript values the engine serializes.  Arrays and
objects carry their own list types (`JsonList`, `JsonMembers`) so that all
functions over JSON trees are structurally recursive and kernel-computable.
Numbers are modelled as integers: every number the engine itself writes into
a JWT payload is an integer epoch value. -/

mutual

inductive Json where
  | null : Json
  | bool (b : Bool) : Json
  | num (n : Int) : Json
  | str (s : String) : Json
  | arr (elems : JsonList) : Json
  | obj (members : JsonMembers) : Json

inductive JsonList where
  | nil : JsonList
  | cons (hd : Json) (tl : JsonList) : JsonList

inductive JsonMembers where
  | nil : JsonMembers
  | cons (key : String) (val : Json) (tl : JsonMembers) : JsonMembers

end

mutual

def Json.decEq : (a b : Json) → Decidable (a = b)
  | .null, .null => isTrue rfl
  | .bool x, .bool y =>
    if h : x = y then isTrue (h ▸ rfl) else isFalse (fun hh => h (Json.bool.inj hh))
  | .num x, .num y =>
    if h : x = y then isTrue (h ▸ rfl) else isFalse (fun hh => h (Json.num.inj hh))
  | .str x, .str y =>
    if h : x = y then isTrue (h ▸ rfl) else isFalse (fun hh => h (Json.str.inj hh))
  | .arr x, .arr y =>
    match Json.decEqList x y with
    | isTrue h => isTrue (h ▸ rfl)
    | isFalse h => isFalse (fun hh => h (Json.arr.inj hh))
  | .obj x, .obj y =>
    match Json.decEqMembers x y with
    | isTrue h => isTrue (h ▸ rfl)
    | isFalse h => isFalse (fun hh => h (Json.obj.inj hh))
  | .null, .bool _ => isFalse nofun
  | .null, .num _ => isFalse nofun
  | .null, .str _ => isFalse nofun
  | .null, .arr _ => isFalse nofun
  | .null, .obj _ => isFalse nofun
  | .bool _, .null => isFalse nofun
  | .bool _, .num _ => isFalse nofun
  | .bool _, .str _ => isFalse nofun
  | .bool _, .arr _ => isFalse nofun
  | .bool _, .obj _ => isFalse nofun
  | .num _, .null => isFalse nofun
  | .num _, .bool _ => isFalse nofun
  | .num _, .str _ => isFalse nofun
  | .num _, .arr _ => isFalse nofun
  | .num _, .obj _ => isFalse nofun
  | .str _, .null => isFalse nofun
  | .str _, .bool _ => isFalse nofun
  | .str _, .num _ => isFalse nofun
  | .str _, .arr _ => isFalse nofun
  | .str _, .obj _ => isFalse nofun
  | .arr _, .null => isFalse nofun
  | .arr _, .bool _ => isFalse nofun
  | .arr _, .num _ => isFalse nofun
  | .arr _, .str _ => isFalse nofun
  | .arr _, .obj _ => isFalse nofun
  | .obj _, .null => isFalse nofun
  | .obj _, .bool _ => isFalse nofun
  | .obj _, .num _ => isFalse nofun
  | .obj _, .str _ => isFalse nofun
  | .obj _, .arr _ => isFalse nofun

def Json.decEqList : (a b : JsonList) → Decidable (a = b)
  | .nil, .nil => isTrue rfl
  | .nil, .cons _ _ => isFalse nofun
  | .cons _ _, .nil => isFalse nofun
  | .cons x xs, .cons y ys =>
    match Json.decEq x y, Json.decEqList xs ys with
    | isTrue h1, isTrue h2 => isTrue (by rw [h1, h2])
    | isFalse h1, _ => isFalse (by intro hh; injection hh with hh1 hh2; exact h1 hh1)
    | isTrue _, isFalse h2 => isFalse (by intro hh; injection hh with hh1 hh2; exact h2 hh2)

def Json.decEqMembers : (a b : JsonMembers) → Decidable (a = b)
  | .nil, .nil => isTrue rfl
  | .nil, .cons _ _ _ => isFalse nofun
  | .cons _ _ _, .nil => isFalse nofun
  | .cons k1 v1 xs, .cons k2 v2 ys =>
    if hk : k1 = k2 then
      match Json.decEq v1 v2, Json.decEqMembers xs ys with
      | isTrue h1, isTrue h2 => isTrue (by rw [hk, h1, h2])
      | isFalse h1, _ => isFalse (by intro hh; injection hh with hh1 hh2 hh3; exact h1 hh2)
      | isTrue _, isFalse h2 => isFalse (by intro hh; injection hh with hh1 hh2 hh3; exact h2 hh3)
    else
      isFalse (by intro hh; injection hh with hh1 hh2 hh3; exact hk hh1)

end

instance : DecidableEq Json := Json.decEq

instance : DecidableEq JsonList := Json.decEqList

instance : DecidableEq JsonMembers := Json.decEqMembers

/-- Build a `JsonList` from a Lean list. -/
def JsonList.ofList : List Json → JsonList
  | [] => .nil
  | j :: tl => .cons j (JsonList.ofList tl)

/-- The Lean list of a `JsonList`. -/
def JsonList.toList : JsonList → List Json
  | .nil => []
  | .cons j tl => j :: tl.toList

/-- Build `JsonMembers` from a Lean association list. -/
def JsonMembers.ofList : List (String × Json) → JsonMembers
  | [] => .nil
  | (k, v) :: tl => .cons k v (JsonMembers.ofList tl)

/-- The Lean association list of a `JsonMembers`. -/
def JsonMembers.toList : JsonMembers → List (String × Json)
  | .nil => []
  | .cons k v tl => (k, v) :: tl.toList

/-- Lower-case hexadecimal digit character, as `JSON.stringify` emits in
unicode escapes. -/
def hexDigitChar (n : Nat) : Char :=
  if n < 10 then Char.ofNat (48 + n) else Char.ofNat (87 + n)

/-- Character escaping performed by `JSON.stringify` inside string literals. -/
def escChar (c : Char) : List Char :=
  if c = quoteC then [bslashC, quoteC]
  else if c = bslashC then [bslashC, bslashC]
  else if c.toNat = 8 then [bslashC, 'b']
  else if c.toNat = 9 then [bslashC, 't']
  else if c.toNat = 10 then [bslashC, 'n']
  else if c.toNat = 12 then [bslashC, 'f']
  else if c.toNat = 13 then [bslashC, 'r']
  else if c.toNat < 32 then
    [bslashC, 'u', Char.ofNat 48, Char.ofNat 48,
      hexDigitChar (c.toNat / 16), hexDigitChar (c.toNat % 16)]
  else [c]

/-- Escaped body of a JSON string literal. -/
def escBody (cs : List Char) : List Char := cs.foldr (fun c acc => escChar c ++ acc) []

/-- A complete JSON string literal for `s`, quotes included. -/
def escStr (s : String) : List Char := quoteC :: (escBody s.data ++ [quoteC])

mutual

/-- `JSON.stringify` on a `Json` value (character list form): canonical
serialization with no whitespace, exactly as the JavaScript engine produces
for values free of `undefined`. -/
def sVal : Json → List Char
  | .null => (['n', 'u', 'l', 'l'] : List Char)
  | .bool true => (['t', 'r', 'u', 'e'] : List Char)
  | .bool false => (['f', 'a', 'l', 's', 'e'] : List Char)
  | .num i => intChars i
  | .str s => escStr s
  | .arr .nil => ['[', ']']
  | .arr (.cons h t) => '[' :: (sItems (.cons h t) ++ [']'])
  | .obj .nil => [lbraceC, rbraceC]
  | .obj (.cons k v t) => lbraceC :: (sMembers (.cons k v t) ++ [rbraceC])

/-- Comma-separated serialization of array elements. -/
def sItems : JsonList → List Char
  | .nil => []
  | .cons v .nil => sVal v
  | .cons v (.cons w t) => sVal v ++ ',' :: sItems (.cons w t)

/-- Comma-separated serialization of object members. -/
def sMembers : JsonMembers → List Char
  | .nil => []
  | .cons k v .nil => escStr k ++ ':' :: sVal v
  | .cons k v (.cons k2 v2 t) => (escStr k ++ ':' :: sVal v) ++ ',' :: sMembers (.cons k2 v2 t)

end

/-- `JSON.stringify` as a string-valued function. -/
def jsonStringify (j : Json) : String := String.mk (sVal j)

/-! ## JSON parsing

A recursive-descent parser for the canonical texts `sVal` produces,
modelling `JSON.parse` (restricted to integer numerals and without
insignificant whitespace; the engine only ever parses texts produced by
`JSON.stringify`). -/

/-- Unescape a single-character JSON escape. -/
def unescC (c : Char) : Option Char :=
  if c = quoteC then some quoteC
  else if c = bslashC then some bslashC
  else if c = '/' then some '/'
  else if c = 'b' then some (Char.ofNat 8)
  else if c = 't' then some (Char.ofNat 9)
  else if c = 'n' then some (Char.ofNat 10)
  else if c = 'f' then some (Char.ofNat 12)
  else if c = 'r' then some (Char.ofNat 13)
  else none

/-- Value of a hexadecimal digit character. -/
def hexVal (c : Char) : Option Nat :=
  if 48 ≤ c.toNat ∧ c.toNat ≤ 57 then some (c.toNat - 48)
  else if 97 ≤ c.toNat ∧ c.toNat ≤ 102 then some (c.toNat - 87)
  else if 65 ≤ c.toNat ∧ c.toNat ≤ 70 then some (c.toNat - 55)
  else none

/-- Parse the body of a JSON string literal (after the opening quote),
returning the unescaped characters and the input after the closing quote.
Fueled for structural recursion; one unit of fuel is spent per character
group, so `input length + 1` always suffices. -/
def parseStrChars : Nat → List Char → Option (List Char × List Char)
  | 0, _ => none
  | _ + 1, [] => none
  | fuel + 1, c :: rest =>
    if c = quoteC then some ([], rest)
    else if c = bslashC then
      match rest with
      | [] => none
      | e :: rest2 =>
        if e = 'u' then
          match rest2 with
          | h1 :: h2 :: h3 :: h4 :: rest3 => do
            let v1 ← hexVal h1
            let v2 ← hexVal h2
            let v3 ← hexVal h3
            let v4 ← hexVal h4
            let (s, r) ← parseStrChars fuel rest3
            some (Char.ofNat (4096 * v1 + 256 * v2 + 16 * v3 + v4) :: s, r)
          | _ => none
        else do
          let d ← unescC e
          let (s, r) ← parseStrChars fuel rest2
          some (d :: s, r)
    else if c.toNat < 32 then none
    else do
      let (s, r) ← parseStrChars fuel rest
      some (c :: s, r)

/-- Parse an integer numeral off the front of the input. -/
def parseNum (cs : List Char) : Option (Json × List Char) :=
  match cs with
  | [] => none
  | c :: tl =>
    if c = Char.ofNat 45 then
      let ds := tl.takeWhile isDigitC
      if ds = [] then none
      else some (.num (-(decimalToNat ds : Int)), tl.dropWhile isDigitC)
    else
      let ds := (c :: tl).takeWhile isDigitC
      if ds = [] then none
      else some (.num (decimalToNat ds), (c :: tl).dropWhile isDigitC)

mutual

/-- Fueled parser for a single JSON value. -/
def parseVal : Nat → List Char → Option (Json × List Char)
  | 0, _ => none
  | _ + 1, [] => none
  | fuel + 1, c :: rest =>
    if c = 'n' then
      match rest with
      | 'u' :: 'l' :: 'l' :: r => some (.null, r)
      | _ => none
    else if c = 't' then
      match rest with
      | 'r' :: 'u' :: 'e' :: r => some (.bool true, r)
      | _ => none
    else if c = 'f' then
      match rest with
      | 'a' :: 'l' :: 's' :: 'e' :: r => some (.bool false, r)
      | _ => none
    else if c = quoteC then
      (parseStrChars (rest.length + 1) rest).map (fun p => (.str (String.mk p.1), p.2))
    else if c = '[' then
      match rest with
      | [] => none
      | c2 :: r2 =>
        if c2 = ']' then some (.arr .nil, r2)
        else (parseItems fuel (c2 :: r2)).map (fun p => (.arr p.1, p.2))
    else if c = lbraceC then
      match rest with
      | [] => none
      | c2 :: r2 =>
        if c2 = rbraceC then some (.obj .nil, r2)
        else (parseMembers fuel (c2 :: r2)).map (fun p => (.obj p.1, p.2))
    else parseNum (c :: rest)

/-- Fueled parser for the elements of a nonempty JSON array. -/
def parseItems : Nat → List Char → Option (JsonList × List Char)
  | 0, _ => none
  | fuel + 1, cs => do
    let (v, r) ← parseVal fuel cs
    match r with
    | ',' :: r2 => (parseItems fuel r2).map (fun p => (.cons v p.1, p.2))
    | ']' :: r2 => some (.cons v .nil, r2)
    | _ => none

/-- Fueled parser for the members of a nonempty JSON object. -/
def parseMembers : Nat → List Char → Option (JsonMembers × List Char)
  | 0, _ => none
  | fuel + 1, cs =>
    match cs with
    | [] => none
    | c :: rest =>
      if c = quoteC then do
        let (k, r) ← parseStrChars (rest.length + 1) rest
        match r with
        | ':' :: r2 => do
          let (v, r3) ← parseVal fuel r2
          match r3 with
          | [] => none
          | c5 :: r4 =>
            if c5 = ',' then
              (parseMembers fuel r4).map (fun p => (.cons (String.mk k) v p.1, p.2))
            else if c5 = rbraceC then some (.cons (String.mk k) v .nil, r4)
            else none
        | _ => none
      else none

end

/-- `JSON.parse`: parse a complete JSON text (the whole input must be
consumed). -/
def jsonParse (s : String) : Option Json :=
  match parseVal (s.data.length + 1) s.data with
  | some (j, []) => some j
  | _ => none

/-! ## Round-trip: `jsonParse` inverts `jsonStringify` -/

theorem hexVal_hexDigitChar (n : Nat) (h : n < 16) : hexVal (hexDigitChar n) = some n := by
  by_cases h10 : n < 10
  · have ht : (Char.ofNat (48 + n)).toNat = 48 + n := char_toNat_ofNat _ (by omega)
    simp only [hexDigitChar, h10, if_true, hexVal, ht]
    rw [if_pos (by omega)]
    congr 1
    omega
  · have ht : (Char.ofNat (87 + n)).toNat = 87 + n := char_toNat_ofNat _ (by omega)
    simp only [hexDigitChar, h10, if_false, hexVal, ht]
    rw [if_neg (by omega), if_pos (by omega)]
    congr 1
    omega

theorem string_mk_data (s : String) : String.mk s.data = s := rfl

theorem escBody_cons (c : Char) (tl : List Char) :
    escBody (c :: tl) = escChar c ++ escBody tl := rfl

theorem escChar_length_pos (c : Char) : 1 ≤ (escChar c).length := by
  unfold escChar
  split_ifs <;> simp

theorem escBody_length (cs : List Char) : cs.length ≤ (escBody cs).length := by
  induction cs with
  | nil => simp [escBody]
  | cons c tl ih =>
    rw [escBody_cons]
    have := escChar_length_pos c
    simp only [List.length_append, List.length_cons]
    omega

theorem parseStrChars_escBody (cs : List Char) : ∀ (fuel : Nat) (rest : List Char),
    cs.length + 1 ≤ fuel →
    parseStrChars fuel (escBody cs ++ quoteC :: rest) = some (cs, rest) := by
  induction cs with
  | nil =>
    intro fuel rest hf
    match fuel, hf with
    | f + 1, _ =>
      show parseStrChars (f + 1) (quoteC :: rest) = some ([], rest)
      simp [parseStrChars]
  | cons c tl ih =>
    intro fuel rest hf
    match fuel, hf with
    | f + 1, hf =>
      have hful : tl.length + 1 ≤ f := by
        simp only [List.length_cons] at hf
        omega
      rw [escBody_cons, List.append_assoc]
      by_cases hq : c = quoteC
      · subst hq
        rw [show escChar quoteC = [bslashC, quoteC] by simp [escChar]]
        simp +decide [parseStrChars, unescC, ih f rest hful]
      · by_cases hb : c = bslashC
        · subst hb
          rw [show escChar bslashC = [bslashC, bslashC] by simp +decide [escChar]]
          simp +decide [parseStrChars, unescC, ih f rest hful]
        · by_cases h8 : c.toNat = 8
          · rw [show escChar c = [bslashC, 'b'] by simp [escChar, hq, hb, h8]]
            have hc : Char.ofNat 8 = c := by rw [← h8, Char.ofNat_toNat]
            simp +decide [parseStrChars, unescC, ih f rest hful]
            exact hc
          · by_cases h9 : c.toNat = 9
            · rw [show escChar c = [bslashC, 't'] by simp [escChar, hq, hb, h8, h9]]
              have hc : Char.ofNat 9 = c := by rw [← h9, Char.ofNat_toNat]
              simp +decide [parseStrChars, unescC, ih f rest hful]
              exact hc
            · by_cases h10 : c.toNat = 10
              · rw [show escChar c = [bslashC, 'n'] by simp [escChar, hq, hb, h8, h9, h10]]
                have hc : Char.ofNat 10 = c := by rw [← h10, Char.ofNat_toNat]
                simp +decide [parseStrChars, unescC, ih f rest hful]
                exact hc
              · by_cases h12 : c.toNat = 12
                · rw [show escChar c = [bslashC, 'f'] by
                    simp [escChar, hq, hb, h8, h9, h10, h12]]
                  have hc : Char.ofNat 12 = c := by rw [← h12, Char.ofNat_toNat]
                  simp +decide [parseStrChars, unescC, ih f rest hful]
                  exact hc
                · by_cases h13 : c.toNat = 13
                  · rw [show escChar c = [bslashC, 'r'] by
                      simp [escChar, hq, hb, h8, h9, h10, h12, h13]]
                    have hc : Char.ofNat 13 = c := by rw [← h13, Char.ofNat_toNat]
                    simp +decide [parseStrChars, unescC, ih f rest hful]
                    exact hc
                  · by_cases hlt : c.toNat < 32
                    · rw [show escChar c = [bslashC, 'u', Char.ofNat 48, Char.ofNat 48,
                          hexDigitChar (c.toNat / 16), hexDigitChar (c.toNat % 16)] by
                        simp [escChar, hq, hb, h8, h9, h10, h12, h13, hlt]]
                      have hhi : hexVal (hexDigitChar (c.toNat / 16)) = some (c.toNat / 16) :=
                        hexVal_hexDigitChar _ (by omega)
                      have hlo : hexVal (hexDigitChar (c.toNat % 16)) = some (c.toNat % 16) :=
                        hexVal_hexDigitChar _ (by omega)
                      have hc : Char.ofNat (16 * (c.toNat / 16) + c.toNat % 16) = c := by
                        rw [show 16 * (c.toNat / 16) + c.toNat % 16
                            = c.toNat by omega, Char.ofNat_toNat]
                      have h48 : hexVal (Char.ofNat 48) = some 0 := by decide
                      simp +decide [parseStrChars, hhi, hlo, h48, ih f rest hful]
                      exact hc
                    · rw [show escChar c = [c] by
                        simp [escChar, hq, hb, h8, h9, h10, h12, h13, hlt]]
                      simp [parseStrChars, hq, hb, hlt, ih f rest hful]

/-! ### Numbers -/

theorem takeWhile_append_all {p : Char → Bool} (xs : List Char) (h : ∀ x ∈ xs, p x = true) :
    ∀ ys, List.takeWhile p (xs ++ ys) = xs ++ List.takeWhile p ys := by
  induction xs with
  | nil => simp
  | cons x tl ih =>
    intro ys
    have hx : p x = true := h x (List.mem_cons_self x tl)
    simp only [List.cons_append, List.takeWhile_cons, hx, if_true]
    rw [ih (fun y hy => h y (List.mem_cons_of_mem x hy)) ys]

theorem dropWhile_append_all {p : Char → Bool} (xs : List Char) (h : ∀ x ∈ xs, p x = true) :
    ∀ ys, List.dropWhile p (xs ++ ys) = List.dropWhile p ys := by
  induction xs with
  | nil => simp
  | cons x tl ih =>
    intro ys
    have hx : p x = true := h x (List.mem_cons_self x tl)
    simp only [List.cons_append, List.dropWhile_cons, hx, if_true]
    exact ih (fun y hy => h y (List.mem_cons_of_mem x hy)) ys

/-- Valid continuations of a serialized JSON value: end of input or a
delimiter, as produced after every nested value by `sVal`. -/
def delimOk : List Char → Prop
  | [] => True
  | c :: _ => c = ',' ∨ c = ']' ∨ c = rbraceC

theorem delim_no_digit (rest : List Char) (h : delimOk rest) :
    List.takeWhile isDigitC rest = [] ∧ List.dropWhile isDigitC rest = rest := by
  cases rest with
  | nil => simp
  | cons c tl =>
    rcases h with h | h | h <;> subst h <;>
      simp +decide [List.takeWhile_cons, List.dropWhile_cons]

theorem natChars_cons (n : Nat) :
    ∃ d ds, natChars n = d :: ds ∧ isDigitC d = true := by
  cases h : natChars n with
  | nil => exact absurd h (natChars_ne_nil n)
  | cons d ds =>
    exact ⟨d, ds, rfl, natChars_digits n d (h ▸ List.mem_cons_self d ds)⟩

theorem parseNum_natChars (n : Nat) (rest : List Char) (hrest : delimOk rest) :
    parseNum (natChars n ++ rest) = some (.num (n : Int), rest) := by
  obtain ⟨d, ds, heq, hdig⟩ := natChars_cons n
  have hall : ∀ x ∈ natChars n, isDigitC x = true := natChars_digits n
  have hne45 : d ≠ Char.ofNat 45 := by
    apply char_ne_of_toNat
    have hb : 48 ≤ d.toNat ∧ d.toNat ≤ 57 := by
      have := hdig
      simp [isDigitC] at this
      omega
    rw [char_toNat_ofNat 45 (by omega)]
    omega
  rw [heq, List.cons_append, parseNum]
  rw [if_neg hne45]
  rw [← List.cons_append, ← heq]
  rw [takeWhile_append_all _ hall rest, dropWhile_append_all _ hall rest,
    (delim_no_digit rest hrest).1, (delim_no_digit rest hrest).2, List.append_nil]
  rw [if_neg (by simp [natChars_ne_nil n])]
  rw [decimalToNat_natChars]

theorem parseNum_intChars (i : Int) (rest : List Char) (hrest : delimOk rest) :
    parseNum (intChars i ++ rest) = some (.num i, rest) := by
  by_cases hneg : i < 0
  · have hall : ∀ x ∈ natChars i.natAbs, isDigitC x = true := natChars_digits _
    rw [show intChars i = Char.ofNat 45 :: natChars i.natAbs by simp [intChars, hneg]]
    rw [List.cons_append, parseNum, if_pos rfl]
    rw [takeWhile_append_all _ hall rest, dropWhile_append_all _ hall rest,
      (delim_no_digit rest hrest).1, (delim_no_digit rest hrest).2, List.append_nil]
    rw [if_neg (by simp [natChars_ne_nil])]
    rw [decimalToNat_natChars]
    have hcast : -(i.natAbs : Int) = i := by omega
    rw [hcast]
  · rw [show intChars i = natChars i.natAbs by simp [intChars, hneg]]
    rw [parseNum_natChars _ rest hrest]
    have hcast : (i.natAbs : Int) = i := by omega
    rw [hcast]

/-! ### First characters of serialized values -/

theorem intChars_cons (i : Int) :
    ∃ d ds, intChars i = d :: ds ∧ (d.toNat = 45 ∨ (48 ≤ d.toNat ∧ d.toNat ≤ 57)) := by
  by_cases hneg : i < 0
  · refine ⟨Char.ofNat 45, natChars i.natAbs, by simp [intChars, hneg], Or.inl ?_⟩
    exact char_toNat_ofNat 45 (by omega)
  · obtain ⟨d, ds, heq, hdig⟩ := natChars_cons i.natAbs
    refine ⟨d, ds, by simp [intChars, hneg, heq], Or.inr ?_⟩
    simp [isDigitC] at hdig
    omega

theorem sVal_head (j : Json) : ∃ c tl, sVal j = c :: tl ∧ c ≠ ']' ∧ c ≠ rbraceC := by
  cases j with
  | null => exact ⟨'n', _, rfl, by decide, by decide⟩
  | bool b =>
    cases b with
    | true => exact ⟨'t', _, rfl, by decide, by decide⟩
    | false => exact ⟨'f', _, rfl, by decide, by decide⟩
  | num i =>
    obtain ⟨d, ds, heq, hrange⟩ := intChars_cons i
    refine ⟨d, ds, by simp [sVal, heq], ?_, ?_⟩
    · apply char_ne_of_toNat
      have hv : (']').toNat = 93 := rfl
      omega
    · apply char_ne_of_toNat
      have hv : rbraceC.toNat = 125 := by decide
      omega
  | str s => exact ⟨quoteC, _, rfl, by decide, by decide⟩
  | arr l =>
    cases l with
    | nil => exact ⟨'[', _, rfl, by decide, by decide⟩
    | cons h t => exact ⟨'[', _, rfl, by decide, by decide⟩
  | obj m =>
    cases m with
    | nil => exact ⟨lbraceC, _, rfl, by decide, by decide⟩
    | cons k v t => exact ⟨lbraceC, _, rfl, by decide, by decide⟩

/-! ### Parser fuel measure -/

mutual

def jsize : Json → Nat
  | .null => 1
  | .bool _ => 1
  | .num _ => 1
  | .str _ => 1
  | .arr l => 1 + jsizeL l
  | .obj m => 1 + jsizeM m

def jsizeL : JsonList → Nat
  | .nil => 0
  | .cons v tl => 1 + jsize v + jsizeL tl

def jsizeM : JsonMembers → Nat
  | .nil => 0
  | .cons _ v tl => 1 + jsize v + jsizeM tl

end

theorem jsize_pos (j : Json) : 1 ≤ jsize j := by
  cases j <;> simp [jsize]

theorem parseItems_succ (fuel : Nat) (cs : List Char) :
    parseItems (fuel + 1) cs = (do
      let (v, r) ← parseVal fuel cs
      match r with
      | ',' :: r2 => (parseItems fuel r2).map (fun p => (.cons v p.1, p.2))
      | ']' :: r2 => some (.cons v .nil, r2)
      | _ => none) := rfl

theorem parseMembers_succ (fuel : Nat) (c : Char) (rest : List Char) :
    parseMembers (fuel + 1) (c :: rest) =
      (if c = quoteC then do
          let (k, r) ← parseStrChars (rest.length + 1) rest
          match r with
          | ':' :: r2 => do
            let (v, r3) ← parseVal fuel r2
            match r3 with
            | [] => none
            | c5 :: r4 =>
              if c5 = ',' then
                (parseMembers fuel r4).map (fun p => (.cons (String.mk k) v p.1, p.2))
              else if c5 = rbraceC then some (.cons (String.mk k) v .nil, r4)
              else none
          | _ => none
        else none) := rfl

theorem parse_sound (fuel : Nat) :
    (∀ (j : Json) (rest : List Char), jsize j ≤ fuel → delimOk rest →
      parseVal fuel (sVal j ++ rest) = some (j, rest)) ∧
    (∀ (v : Json) (tl : JsonList) (rest : List Char),
      jsizeL (.cons v tl) ≤ fuel → delimOk rest →
      parseItems fuel (sItems (.cons v tl) ++ ']' :: rest) = some (.cons v tl, rest)) ∧
    (∀ (k : String) (v : Json) (tl : JsonMembers) (rest : List Char),
      jsizeM (.cons k v tl) ≤ fuel → delimOk rest →
      parseMembers fuel (sMembers (.cons k v tl) ++ rbraceC :: rest)
        = some (.cons k v tl, rest)) := by
  induction fuel with
  | zero =>
    refine ⟨fun j _ h _ => absurd h (by have := jsize_pos j; omega), ?_, ?_⟩
    · intro v tl _ h _
      exact absurd h (by simp [jsizeL])
    · intro k v tl _ h _
      exact absurd h (by simp [jsizeM])
  | succ n ih =>
    obtain ⟨ih1, ih2, ih3⟩ := ih
    refine ⟨?_, ?_, ?_⟩
    · intro j rest hsz hrest
      cases j with
      | null =>
        rw [show sVal Json.null = ['n', 'u', 'l', 'l'] from rfl, parseVal.eq_def]
        simp
      | bool b =>
        cases b with
        | true =>
          rw [show sVal (Json.bool true) = ['t', 'r', 'u', 'e'] from rfl, parseVal.eq_def]
          simp +decide
        | false =>
          rw [show sVal (Json.bool false) = ['f', 'a', 'l', 's', 'e'] from rfl,
            parseVal.eq_def]
          simp +decide
      | num i =>
        obtain ⟨d, ds, heq, hrange⟩ := intChars_cons i
        have hn1 : d ≠ 'n' := by
          apply char_ne_of_toNat
          have hv : ('n').toNat = 110 := rfl
          omega
        have hn2 : d ≠ 't' := by
          apply char_ne_of_toNat
          have hv : ('t').toNat = 116 := rfl
          omega
        have hn3 : d ≠ 'f' := by
          apply char_ne_of_toNat
          have hv : ('f').toNat = 102 := rfl
          omega
        have hn4 : d ≠ quoteC := by
          apply char_ne_of_toNat
          have hv : quoteC.toNat = 34 := by decide
          omega
        have hn5 : d ≠ '[' := by
          apply char_ne_of_toNat
          have hv : ('[').toNat = 91 := rfl
          omega
        have hn6 : d ≠ lbraceC := by
          apply char_ne_of_toNat
          have hv : lbraceC.toNat = 123 := by decide
          omega
        rw [show sVal (Json.num i) = intChars i from rfl, heq, List.cons_append,
          parseVal.eq_def]
        simp only [hn1, hn2, hn3, hn4, hn5, hn6, if_false, ite_false]
        rw [← List.cons_append, ← heq]
        exact parseNum_intChars i rest hrest
      | str s =>
        rw [show sVal (Json.str s) = quoteC :: (escBody s.data ++ [quoteC]) from rfl,
          List.cons_append, parseVal.eq_def]
        have e1 : (quoteC = 'n') = False := by decide
        have e2 : (quoteC = 't') = False := by decide
        have e3 : (quoteC = 'f') = False := by decide
        simp only [e1, e2, e3, eq_self_iff_true, if_true, if_false, ite_false, ite_true]
        rw [show (escBody s.data ++ [quoteC]) ++ rest
            = escBody s.data ++ quoteC :: rest by simp]
        rw [parseStrChars_escBody s.data _ rest (by
          simp only [List.length_append, List.length_cons]
          have := escBody_length s.data
          omega)]
        simp [string_mk_data]
      | arr l =>
        cases l with
        | nil =>
          rw [show sVal (Json.arr .nil) = ['[', ']'] from rfl, parseVal.eq_def]
          simp +decide
        | cons h t =>
          obtain ⟨c0, tl0, hsv, hne1, hne2⟩ := sVal_head h
          have hX : ∃ X, sItems (.cons h t) = c0 :: X := by
            cases t with
            | nil => exact ⟨tl0, by simp [sItems, hsv]⟩
            | cons w t2 => exact ⟨tl0 ++ ',' :: sItems (.cons w t2), by simp [sItems, hsv]⟩
          obtain ⟨X, hX⟩ := hX
          rw [show sVal (Json.arr (.cons h t)) = '[' :: (sItems (.cons h t) ++ [']'])
              from rfl, List.cons_append, parseVal.eq_def]
          have e1 : (('[' : Char) = 'n') = False := by decide
          have e2 : (('[' : Char) = 't') = False := by decide
          have e3 : (('[' : Char) = 'f') = False := by decide
          have e4 : (('[' : Char) = quoteC) = False := by decide
          rw [show (sItems (.cons h t) ++ [']']) ++ rest
              = sItems (.cons h t) ++ ']' :: rest by simp, hX, List.cons_append]
          simp only [e1, e2, e3, e4, eq_self_iff_true, if_true, if_false, ite_false,
            ite_true]
          rw [if_neg hne1]
          rw [← List.cons_append, ← hX]
          rw [ih2 h t rest (by simp [jsize, jsizeL] at hsz ⊢; omega) hrest]
          rfl
      | obj m =>
        cases m with
        | nil =>
          rw [show sVal (Json.obj .nil) = [lbraceC, rbraceC] from rfl, parseVal.eq_def]
          simp +decide
        | cons k v t =>
          have hX : ∃ X, sMembers (.cons k v t) = quoteC :: X := by
            cases t with
            | nil => exact ⟨escBody k.data ++ [quoteC] ++ ':' :: sVal v, by
                simp [sMembers, escStr]⟩
            | cons k2 v2 t2 => exact ⟨(escBody k.data ++ [quoteC] ++ ':' :: sVal v)
                ++ ',' :: sMembers (.cons k2 v2 t2), by simp [sMembers, escStr]⟩
          obtain ⟨X, hX⟩ := hX
          rw [show sVal (Json.obj (.cons k v t))
              = lbraceC :: (sMembers (.cons k v t) ++ [rbraceC]) from rfl,
            List.cons_append, parseVal.eq_def]
          have e1 : (lbraceC = 'n') = False := by decide
          have e2 : (lbraceC = 't') = False := by decide
          have e3 : (lbraceC = 'f') = False := by decide
          have e4 : (lbraceC = quoteC) = False := by decide
          have e5 : (lbraceC = '[') = False := by decide
          have e6 : (quoteC = rbraceC) = False := by decide
          rw [show (sMembers (.cons k v t) ++ [rbraceC]) ++ rest
              = sMembers (.cons k v t) ++ rbraceC :: rest by simp, hX, List.cons_append]
          simp only [e1, e2, e3, e4, e5, e6, eq_self_iff_true, if_true, if_false,
            ite_false, ite_true]
          rw [← List.cons_append, ← hX]
          rw [ih3 k v t rest (by simp [jsize, jsizeM] at hsz ⊢; omega) hrest]
          rfl
    · intro v tl rest hsz hrest
      cases tl with
      | nil =>
        rw [show sItems (.cons v .nil) = sVal v from rfl, parseItems_succ]
        rw [ih1 v (']' :: rest) (by simp [jsizeL] at hsz; omega) (Or.inr (Or.inl rfl))]
        rfl
      | cons w t2 =>
        rw [show sItems (.cons v (.cons w t2))
            = sVal v ++ ',' :: sItems (.cons w t2) from rfl, parseItems_succ]
        rw [List.append_assoc, List.cons_append]
        rw [ih1 v (',' :: (sItems (.cons w t2) ++ ']' :: rest))
          (by simp [jsizeL] at hsz; omega) (Or.inl rfl)]
        show (parseItems n (sItems (.cons w t2) ++ ']' :: rest)).map _ = _
        rw [ih2 w t2 rest (by simp [jsizeL] at hsz ⊢; omega) hrest]
        rfl
    · intro k v tl rest hsz hrest
      cases tl with
      | nil =>
        rw [show sMembers (.cons k v .nil) = escStr k ++ ':' :: sVal v from rfl]
        rw [show escStr k = quoteC :: (escBody k.data ++ [quoteC]) from rfl]
        simp only [List.append_assoc, List.cons_append, List.singleton_append]
        rw [parseMembers_succ]
        rw [if_pos rfl]
        rw [parseStrChars_escBody k.data _ _ (by
          simp only [List.length_append, List.length_cons]
          have := escBody_length k.data
          omega)]
        show (parseVal n (sVal v ++ rbraceC :: rest)).bind _ = _
        rw [ih1 v (rbraceC :: rest) (by simp [jsizeM] at hsz; omega)
          (Or.inr (Or.inr rfl))]
        simp +decide [string_mk_data]
      | cons k2 v2 t2 =>
        rw [show sMembers (.cons k v (.cons k2 v2 t2))
            = (escStr k ++ ':' :: sVal v) ++ ',' :: sMembers (.cons k2 v2 t2) from rfl]
        rw [show escStr k = quoteC :: (escBody k.data ++ [quoteC]) from rfl]
        simp only [List.append_assoc, List.cons_append, List.singleton_append]
        rw [parseMembers_succ]
        rw [if_pos rfl]
        rw [parseStrChars_escBody k.data _ _ (by
          simp only [List.length_append, List.length_cons]
          have := escBody_length k.data
          omega)]
        show (parseVal n (sVal v ++ ',' :: (sMembers (.cons k2 v2 t2)
          ++ rbraceC :: rest))).bind _ = _
        rw [ih1 v (',' :: (sMembers (.cons k2 v2 t2) ++ rbraceC :: rest))
          (by simp [jsizeM] at hsz; omega) (Or.inl rfl)]
        show (parseMembers n (sMembers (.cons k2 v2 t2) ++ rbraceC :: rest)).map _ = _
        rw [ih3 k2 v2 t2 rest (by simp [jsizeM] at hsz ⊢; omega) hrest]
        simp +decide [string_mk_data]

mutual

theorem jsize_le_sVal : (j : Json) → jsize j ≤ (sVal j).length
  | .null => by simp [jsize, sVal]
  | .bool b => by cases b <;> simp [jsize, sVal]
  | .num i => by
    have h := natChars_ne_nil i.natAbs
    have hlen : 1 ≤ (natChars i.natAbs).length := by
      cases hh : natChars i.natAbs with
      | nil => exact absurd hh h
      | cons a b => simp
    by_cases hneg : i < 0 <;> simp [jsize, sVal, intChars, hneg] <;> omega
  | .str s => by simp [jsize, sVal, escStr]
  | .arr .nil => by simp [jsize, jsizeL, sVal]
  | .arr (.cons h t) => by
    have h1 := jsizeL_le_sItems h t
    simp only [jsize, sVal, List.length_cons, List.length_append, List.length_singleton]
    omega
  | .obj .nil => by simp [jsize, jsizeM, sVal]
  | .obj (.cons k v t) => by
    have h1 := jsizeM_le_sMembers k v t
    simp only [jsize, sVal, List.length_cons, List.length_append, List.length_singleton]
    omega
termination_by j => sizeOf j
decreasing_by all_goals (simp_wf <;> omega)

theorem jsizeL_le_sItems : (v : Json) → (tl : JsonList) →
    jsizeL (.cons v tl) ≤ (sItems (.cons v tl)).length + 1
  | v, .nil => by
    have h1 := jsize_le_sVal v
    simp only [jsizeL, sItems]
    omega
  | v, .cons w t => by
    have h1 := jsize_le_sVal v
    have h2 := jsizeL_le_sItems w t
    simp only [jsizeL, sItems, List.length_append, List.length_cons] at h2 ⊢
    omega
termination_by v tl => 1 + sizeOf v + sizeOf tl
decreasing_by all_goals (simp_wf <;> omega)

theorem jsizeM_le_sMembers : (k : String) → (v : Json) → (tl : JsonMembers) →
    jsizeM (.cons k v tl) ≤ (sMembers (.cons k v tl)).length + 1
  | k, v, .nil => by
    have h1 := jsize_le_sVal v
    simp only [jsizeM, sMembers, List.length_append, List.length_cons]
    omega
  | k, v, .cons k2 v2 t => by
    have h1 := jsize_le_sVal v
    have h2 := jsizeM_le_sMembers k2 v2 t
    simp only [jsizeM, sMembers, List.length_append, List.length_cons] at h2 ⊢
    omega
termination_by k v tl => 1 + sizeOf v + sizeOf tl
decreasing_by all_goals (simp_wf <;> omega)

end

/-- `JSON.parse` inverts `JSON.stringify`: the round-trip property the
detached-JWT proof codec relies on. -/
theorem jsonParse_jsonStringify (j : Json) : jsonParse (jsonStringify j) = some j := by
  have hsz : jsize j ≤ (sVal j).length + 1 :=
    le_trans (jsize_le_sVal j) (by omega)
  have h := (parse_sound ((sVal j).length + 1)).1 j [] hsz trivial
  rw [List.append_nil] at h
  rw [jsonParse]
  rw [show (jsonStringify j).data = sVal j from rfl]
  rw [h]

/-! ## Base64url over bytes

Models Node's `Buffer.from(...).toString('base64url')` and its inverse: the
standard base64 alphabet with `+` replaced by `-` and `/` by `_`, unpadded. -/

/-- The base64url character for a sextet. -/
def b64Char (n : Nat) : Char :=
  if n < 26 then Char.ofNat (65 + n)
  else if n < 52 then Char.ofNat (97 + (n - 26))
  else if n < 62 then Char.ofNat (48 + (n - 52))
  else if n = 62 then Char.ofNat 45
  else Char.ofNat 95

/-- The sextet of a base64url character. -/
def b64CharDec (c : Char) : Option Nat :=
  if 65 ≤ c.toNat ∧ c.toNat ≤ 90 then some (c.toNat - 65)
  else if 97 ≤ c.toNat ∧ c.toNat ≤ 122 then some (26 + (c.toNat - 97))
  else if 48 ≤ c.toNat ∧ c.toNat ≤ 57 then some (52 + (c.toNat - 48))
  else if c.toNat = 45 then some 62
  else if c.toNat = 95 then some 63
  else none

theorem b64CharDec_b64Char (n : Nat) (h : n < 64) : b64CharDec (b64Char n) = some n := by
  unfold b64Char b64CharDec
  by_cases h1 : n < 26
  · rw [if_pos h1, char_toNat_ofNat _ (by omega)]
    rw [if_pos (by omega)]
    congr 1
    omega
  · rw [if_neg h1]
    by_cases h2 : n < 52
    · rw [if_pos h2, char_toNat_ofNat _ (by omega)]
      rw [if_neg (by omega), if_pos (by omega)]
      congr 1
      omega
    · rw [if_neg h2]
      by_cases h3 : n < 62
      · rw [if_pos h3, char_toNat_ofNat _ (by omega)]
        rw [if_neg (by omega), if_neg (by omega), if_pos (by omega)]
        congr 1
        omega
      · rw [if_neg h3]
        by_cases h4 : n = 62
        · rw [if_pos h4, char_toNat_ofNat _ (by omega)]
          rw [if_neg (by omega), if_neg (by omega), if_neg (by omega), if_pos (by omega)]
          rw [h4]
        · rw [if_neg h4, char_toNat_ofNat _ (by omega)]
          rw [if_neg (by omega), if_neg (by omega), if_neg (by omega), if_neg (by omega),
            if_pos (by omega)]
          congr 1
          omega

theorem b64Char_toNat_mem (n : Nat) (h : n < 64) :
    (65 ≤ (b64Char n).toNat ∧ (b64Char n).toNat ≤ 90)
    ∨ (97 ≤ (b64Char n).toNat ∧ (b64Char n).toNat ≤ 122)
    ∨ (48 ≤ (b64Char n).toNat ∧ (b64Char n).toNat ≤ 57)
    ∨ (b64Char n).toNat = 45 ∨ (b64Char n).toNat = 95 := by
  unfold b64Char
  by_cases h1 : n < 26
  · rw [if_pos h1, char_toNat_ofNat _ (by omega)]
    omega
  · rw [if_neg h1]
    by_cases h2 : n < 52
    · rw [if_pos h2, char_toNat_ofNat _ (by omega)]
      omega
    · rw [if_neg h2]
      by_cases h3 : n < 62
      · rw [if_pos h3, char_toNat_ofNat _ (by omega)]
        omega
      · rw [if_neg h3]
        by_cases h4 : n = 62
        · rw [if_pos h4, char_toNat_ofNat _ (by omega)]
          omega
        · rw [if_neg h4, char_toNat_ofNat _ (by omega)]
          omega

/-- Base64url encoding of a byte list (no padding). -/
def b64Encode : List Nat → List Char
  | [] => []
  | [b1] => [b64Char (b1 / 4), b64Char (b1 % 4 * 16)]
  | [b1, b2] => [b64Char (b1 / 4), b64Char (b1 % 4 * 16 + b2 / 16), b64Char (b2 % 16 * 4)]
  | b1 :: b2 :: b3 :: rest =>
    b64Char (b1 / 4) :: b64Char (b1 % 4 * 16 + b2 / 16)
      :: b64Char (b2 % 16 * 4 + b3 / 64) :: b64Char (b3 % 64) :: b64Encode rest

/-- Base64url decoding to a byte list. -/
def b64Decode : List Char → Option (List Nat)
  | [] => some []
  | [_] => none
  | [c1, c2] => do
    let s1 ← b64CharDec c1
    let s2 ← b64CharDec c2
    some [s1 * 4 + s2 / 16]
  | [c1, c2, c3] => do
    let s1 ← b64CharDec c1
    let s2 ← b64CharDec c2
    let s3 ← b64CharDec c3
    some [s1 * 4 + s2 / 16, s2 % 16 * 16 + s3 / 4]
  | c1 :: c2 :: c3 :: c4 :: rest => do
    let s1 ← b64CharDec c1
    let s2 ← b64CharDec c2
    let s3 ← b64CharDec c3
    let s4 ← b64CharDec c4
    let rest2 ← b64Decode rest
    some ((s1 * 4 + s2 / 16) :: (s2 % 16 * 16 + s3 / 4) :: (s3 % 4 * 64 + s4) :: rest2)

theorem b64Decode_b64Encode : (bs : List Nat) → (∀ b ∈ bs, b < 256) →
    b64Decode (b64Encode bs) = some bs
  | [], _ => by simp [b64Encode, b64Decode]
  | [b1], h => by
    have hb1 : b1 < 256 := h b1 (by simp)
    rw [show b64Encode [b1] = [b64Char (b1 / 4), b64Char (b1 % 4 * 16)] from rfl]
    rw [b64Decode, b64CharDec_b64Char _ (by omega), b64CharDec_b64Char _ (by omega)]
    show some [b1 / 4 * 4 + b1 % 4 * 16 / 16] = some [b1]
    congr 2
    omega
  | [b1, b2], h => by
    have hb1 : b1 < 256 := h b1 (by simp)
    have hb2 : b2 < 256 := h b2 (by simp)
    rw [show b64Encode [b1, b2]
        = [b64Char (b1 / 4), b64Char (b1 % 4 * 16 + b2 / 16), b64Char (b2 % 16 * 4)]
      from rfl]
    rw [b64Decode, b64CharDec_b64Char _ (by omega), b64CharDec_b64Char _ (by omega),
      b64CharDec_b64Char _ (by omega)]
    show some [b1 / 4 * 4 + (b1 % 4 * 16 + b2 / 16) / 16,
      (b1 % 4 * 16 + b2 / 16) % 16 * 16 + b2 % 16 * 4 / 4] = some [b1, b2]
    congr 3 <;> omega
  | b1 :: b2 :: b3 :: rest, h => by
    have hb1 : b1 < 256 := h b1 (by simp)
    have hb2 : b2 < 256 := h b2 (by simp)
    have hb3 : b3 < 256 := h b3 (by simp)
    have hrest : ∀ b ∈ rest, b < 256 := fun b hb => h b (by simp [hb])
    have ih := b64Decode_b64Encode rest hrest
    rw [show b64Encode (b1 :: b2 :: b3 :: rest)
        = b64Char (b1 / 4) :: b64Char (b1 % 4 * 16 + b2 / 16)
          :: b64Char (b2 % 16 * 4 + b3 / 64) :: b64Char (b3 % 64) :: b64Encode rest
      from rfl]
    cases henc : b64Encode rest with
    | nil =>
      rw [henc] at ih
      rw [b64Decode, b64CharDec_b64Char _ (by omega), b64CharDec_b64Char _ (by omega),
        b64CharDec_b64Char _ (by omega), b64CharDec_b64Char _ (by omega)]
      rw [ih]
      show some ((b1 / 4 * 4 + (b1 % 4 * 16 + b2 / 16) / 16)
        :: ((b1 % 4 * 16 + b2 / 16) % 16 * 16 + (b2 % 16 * 4 + b3 / 64) / 4)
        :: ((b2 % 16 * 4 + b3 / 64) % 4 * 64 + b3 % 64) :: rest) = _
      have e1 : b1 / 4 * 4 + (b1 % 4 * 16 + b2 / 16) / 16 = b1 := by omega
      have e2 : (b1 % 4 * 16 + b2 / 16) % 16 * 16 + (b2 % 16 * 4 + b3 / 64) / 4 = b2 := by
        omega
      have e3 : (b2 % 16 * 4 + b3 / 64) % 4 * 64 + b3 % 64 = b3 := by omega
      rw [e1, e2, e3]
    | cons e es =>
      rw [henc] at ih
      rw [b64Decode, b64CharDec_b64Char _ (by omega), b64CharDec_b64Char _ (by omega),
        b64CharDec_b64Char _ (by omega), b64CharDec_b64Char _ (by omega)]
      rw [ih]
      show some ((b1 / 4 * 4 + (b1 % 4 * 16 + b2 / 16) / 16)
        :: ((b1 % 4 * 16 + b2 / 16) % 16 * 16 + (b2 % 16 * 4 + b3 / 64) / 4)
        :: ((b2 % 16 * 4 + b3 / 64) % 4 * 64 + b3 % 64) :: rest) = _
      have e1 : b1 / 4 * 4 + (b1 % 4 * 16 + b2 / 16) / 16 = b1 := by omega
      have e2 : (b1 % 4 * 16 + b2 / 16) % 16 * 16 + (b2 % 16 * 4 + b3 / 64) / 4 = b2 := by
        omega
      have e3 : (b2 % 16 * 4 + b3 / 64) % 4 * 64 + b3 % 64 = b3 := by omega
      rw [e1, e2, e3]

theorem b64Encode_mem (bs : List Nat) (hb : ∀ b ∈ bs, b < 256) :
    ∀ c ∈ b64Encode bs, ∃ n, n < 64 ∧ c = b64Char n := by
  induction bs using b64Encode.induct with
  | case1 => simp [b64Encode]
  | case2 b1 =>
    have hb1 : b1 < 256 := hb b1 (by simp)
    intro c hc
    rw [show b64Encode [b1] = [b64Char (b1 / 4), b64Char (b1 % 4 * 16)] from rfl] at hc
    simp only [List.mem_cons, List.not_mem_nil, or_false] at hc
    rcases hc with rfl | rfl
    · exact ⟨b1 / 4, by omega, rfl⟩
    · exact ⟨b1 % 4 * 16, by omega, rfl⟩
  | case3 b1 b2 =>
    have hb1 : b1 < 256 := hb b1 (by simp)
    have hb2 : b2 < 256 := hb b2 (by simp)
    intro c hc
    rw [show b64Encode [b1, b2]
        = [b64Char (b1 / 4), b64Char (b1 % 4 * 16 + b2 / 16), b64Char (b2 % 16 * 4)]
      from rfl] at hc
    simp only [List.mem_cons, List.not_mem_nil, or_false] at hc
    rcases hc with rfl | rfl | rfl
    · exact ⟨b1 / 4, by omega, rfl⟩
    · exact ⟨b1 % 4 * 16 + b2 / 16, by omega, rfl⟩
    · exact ⟨b2 % 16 * 4, by omega, rfl⟩
  | case4 b1 b2 b3 rest ih =>
    have hb1 : b1 < 256 := hb b1 (by simp)
    have hb2 : b2 < 256 := hb b2 (by simp)
    have hb3 : b3 < 256 := hb b3 (by simp)
    have hrest : ∀ b ∈ rest, b < 256 := fun b hbm => hb b (by simp [hbm])
    intro c hc
    rw [show b64Encode (b1 :: b2 :: b3 :: rest)
        = b64Char (b1 / 4) :: b64Char (b1 % 4 * 16 + b2 / 16)
          :: b64Char (b2 % 16 * 4 + b3 / 64) :: b64Char (b3 % 64) :: b64Encode rest
      from rfl] at hc
    simp only [List.mem_cons] at hc
    rcases hc with rfl | rfl | rfl | rfl | hmem
    · exact ⟨b1 / 4, by omega, rfl⟩
    · exact ⟨b1 % 4 * 16 + b2 / 16, by omega, rfl⟩
    · exact ⟨b2 % 16 * 4 + b3 / 64, by omega, rfl⟩
    · exact ⟨b3 % 64, by omega, rfl⟩
    · exact ih hrest c hmem

theorem b64Encode_ne_dot_colon (bs : List Nat) (hb : ∀ b ∈ bs, b < 256) :
    ∀ c ∈ b64Encode bs, c ≠ '.' ∧ c ≠ ':' := by
  intro c hc
  obtain ⟨n, hn, rfl⟩ := b64Encode_mem bs hb c hc
  have hm := b64Char_toNat_mem n hn
  constructor
  · apply char_ne_of_toNat
    have hv : ('.').toNat = 46 := rfl
    omega
  · apply char_ne_of_toNat
    have hv : (':').toNat = 58 := rfl
    omega

/-! ## UTF-8

Models the string/byte conversion performed by Node's `Buffer.from(string)`
and `buffer.toString()`: standard UTF-8 over unicode scalar values. -/

theorem char_toNat_lt (c : Char) : c.toNat < 1114112 := by
  have h := c.valid
  simp [UInt32.isValidChar, Nat.isValidChar] at h
  rcases h with h | ⟨h1, h2⟩ <;> (show c.val.toNat < _) <;> omega

/-- UTF-8 bytes of one unicode scalar value. -/
def utf8Char (c : Char) : List Nat :=
  let n := c.toNat
  if n < 128 then [n]
  else if n < 2048 then [192 + n / 64, 128 + n % 64]
  else if n < 65536 then [224 + n / 4096, 128 + n / 64 % 64, 128 + n % 64]
  else [240 + n / 262144, 128 + n / 4096 % 64, 128 + n / 64 % 64, 128 + n % 64]

/-- UTF-8 encoding of a character list. -/
def utf8Encode : List Char → List Nat
  | [] => []
  | c :: tl => utf8Char c ++ utf8Encode tl

/-- Fueled UTF-8 decoder (one unit of fuel per decoded character). -/
def utf8DecodeAux : Nat → List Nat → Option (List Char)
  | 0, _ => none
  | _ + 1, [] => some []
  | fuel + 1, b :: rest =>
    if b < 128 then (utf8DecodeAux fuel rest).map (fun cs => Char.ofNat b :: cs)
    else if b < 192 then none
    else if b < 224 then
      match rest with
      | b2 :: r =>
        if 128 ≤ b2 ∧ b2 < 192 then
          (utf8DecodeAux fuel r).map (fun cs => Char.ofNat ((b - 192) * 64 + (b2 - 128)) :: cs)
        else none
      | _ => none
    else if b < 240 then
      match rest with
      | b2 :: b3 :: r =>
        if (128 ≤ b2 ∧ b2 < 192) ∧ (128 ≤ b3 ∧ b3 < 192) then
          (utf8DecodeAux fuel r).map
            (fun cs => Char.ofNat ((b - 224) * 4096 + (b2 - 128) * 64 + (b3 - 128)) :: cs)
        else none
      | _ => none
    else if b < 248 then
      match rest with
      | b2 :: b3 :: b4 :: r =>
        if (128 ≤ b2 ∧ b2 < 192) ∧ (128 ≤ b3 ∧ b3 < 192) ∧ (128 ≤ b4 ∧ b4 < 192) then
          (utf8DecodeAux fuel r).map
            (fun cs => Char.ofNat ((b - 240) * 262144 + (b2 - 128) * 4096
              + (b3 - 128) * 64 + (b4 - 128)) :: cs)
        else none
      | _ => none
    else none

/-- UTF-8 decoding of a byte list. -/
def utf8Decode (bs : List Nat) : Option (List Char) :=
  utf8DecodeAux (bs.length + 1) bs

theorem utf8DecodeAux_succ_cons (fuel b : Nat) (rest : List Nat) :
    utf8DecodeAux (fuel + 1) (b :: rest) =
      (if b < 128 then (utf8DecodeAux fuel rest).map (fun cs => Char.ofNat b :: cs)
      else if b < 192 then none
      else if b < 224 then
        match rest with
        | b2 :: r =>
          if 128 ≤ b2 ∧ b2 < 192 then
            (utf8DecodeAux fuel r).map
              (fun cs => Char.ofNat ((b - 192) * 64 + (b2 - 128)) :: cs)
          else none
        | _ => none
      else if b < 240 then
        match rest with
        | b2 :: b3 :: r =>
          if (128 ≤ b2 ∧ b2 < 192) ∧ (128 ≤ b3 ∧ b3 < 192) then
            (utf8DecodeAux fuel r).map
              (fun cs => Char.ofNat ((b - 224) * 4096 + (b2 - 128) * 64 + (b3 - 128)) :: cs)
          else none
        | _ => none
      else if b < 248 then
        match rest with
        | b2 :: b3 :: b4 :: r =>
          if (128 ≤ b2 ∧ b2 < 192) ∧ (128 ≤ b3 ∧ b3 < 192) ∧ (128 ≤ b4 ∧ b4 < 192) then
            (utf8DecodeAux fuel r).map
              (fun cs => Char.ofNat ((b - 240) * 262144 + (b2 - 128) * 4096
                + (b3 - 128) * 64 + (b4 - 128)) :: cs)
          else none
        | _ => none
      else none) := rfl

theorem utf8Char_lt256 (c : Char) : ∀ b ∈ utf8Char c, b < 256 := by
  have hlt := char_toNat_lt c
  intro b hb
  unfold utf8Char at hb
  by_cases h1 : c.toNat < 128
  · simp only [h1, if_true] at hb
    simp at hb
    omega
  · by_cases h2 : c.toNat < 2048
    · simp only [h1, h2, if_true, if_false] at hb
      simp at hb
      rcases hb with rfl | rfl <;> omega
    · by_cases h3 : c.toNat < 65536
      · simp only [h1, h2, h3, if_true, if_false] at hb
        simp at hb
        rcases hb with rfl | rfl | rfl <;> omega
      · simp only [h1, h2, h3, if_false] at hb
        simp at hb
        rcases hb with rfl | rfl | rfl | rfl <;> omega

theorem utf8Encode_lt256 (cs : List Char) : ∀ b ∈ utf8Encode cs, b < 256 := by
  induction cs with
  | nil => simp [utf8Encode]
  | cons c tl ih =>
    intro b hb
    rw [show utf8Encode (c :: tl) = utf8Char c ++ utf8Encode tl from rfl] at hb
    rcases List.mem_append.mp hb with h | h
    · exact utf8Char_lt256 c b h
    · exact ih b h

theorem utf8DecodeAux_char (fuel : Nat) (c : Char) (rest : List Nat) :
    utf8DecodeAux (fuel + 1) (utf8Char c ++ rest)
      = (utf8DecodeAux fuel rest).map (fun cs => c :: cs) := by
  have hlt := char_toNat_lt c
  unfold utf8Char
  by_cases h1 : c.toNat < 128
  · simp only [h1, if_true]
    rw [show [c.toNat] ++ rest = c.toNat :: rest from rfl, utf8DecodeAux_succ_cons]
    rw [if_pos h1, Char.ofNat_toNat]
  · by_cases h2 : c.toNat < 2048
    · simp only [h1, h2, if_true, if_false]
      rw [show [192 + c.toNat / 64, 128 + c.toNat % 64] ++ rest
          = (192 + c.toNat / 64) :: (128 + c.toNat % 64) :: rest from rfl,
        utf8DecodeAux_succ_cons]
      rw [if_neg (by omega), if_neg (by omega), if_pos (by omega)]
      show (if 128 ≤ 128 + c.toNat % 64 ∧ 128 + c.toNat % 64 < 192 then
          Option.map (fun cs => Char.ofNat ((192 + c.toNat / 64 - 192) * 64
            + (128 + c.toNat % 64 - 128)) :: cs) (utf8DecodeAux fuel rest)
        else none) = Option.map (fun cs => c :: cs) (utf8DecodeAux fuel rest)
      rw [if_pos (by omega)]
      have harith : (192 + c.toNat / 64 - 192) * 64 + (128 + c.toNat % 64 - 128)
          = c.toNat := by omega
      simp only [harith, Char.ofNat_toNat]
    · by_cases h3 : c.toNat < 65536
      · simp only [h1, h2, h3, if_true, if_false]
        rw [show [224 + c.toNat / 4096, 128 + c.toNat / 64 % 64, 128 + c.toNat % 64] ++ rest
            = (224 + c.toNat / 4096) :: (128 + c.toNat / 64 % 64)
              :: (128 + c.toNat % 64) :: rest from rfl,
          utf8DecodeAux_succ_cons]
        rw [if_neg (by omega), if_neg (by omega), if_neg (by omega), if_pos (by omega)]
        show (if (128 ≤ 128 + c.toNat / 64 % 64 ∧ 128 + c.toNat / 64 % 64 < 192)
            ∧ (128 ≤ 128 + c.toNat % 64 ∧ 128 + c.toNat % 64 < 192) then
            Option.map (fun cs => Char.ofNat ((224 + c.toNat / 4096 - 224) * 4096
              + (128 + c.toNat / 64 % 64 - 128) * 64 + (128 + c.toNat % 64 - 128)) :: cs)
              (utf8DecodeAux fuel rest)
          else none) = Option.map (fun cs => c :: cs) (utf8DecodeAux fuel rest)
        rw [if_pos (by omega)]
        have harith : (224 + c.toNat / 4096 - 224) * 4096
            + (128 + c.toNat / 64 % 64 - 128) * 64 + (128 + c.toNat % 64 - 128)
            = c.toNat := by omega
        simp only [harith, Char.ofNat_toNat]
      · simp only [h1, h2, h3, if_false]
        rw [show [240 + c.toNat / 262144, 128 + c.toNat / 4096 % 64, 128 + c.toNat / 64 % 64,
              128 + c.toNat % 64] ++ rest
            = (240 + c.toNat / 262144) :: (128 + c.toNat / 4096 % 64)
              :: (128 + c.toNat / 64 % 64) :: (128 + c.toNat % 64) :: rest from rfl,
          utf8DecodeAux_succ_cons]
        rw [if_neg (by omega), if_neg (by omega), if_neg (by omega), if_neg (by omega),
          if_pos (by omega)]
        show (if (128 ≤ 128 + c.toNat / 4096 % 64 ∧ 128 + c.toNat / 4096 % 64 < 192)
            ∧ (128 ≤ 128 + c.toNat / 64 % 64 ∧ 128 + c.toNat / 64 % 64 < 192)
            ∧ (128 ≤ 128 + c.toNat % 64 ∧ 128 + c.toNat % 64 < 192) then
            Option.map (fun cs => Char.ofNat ((240 + c.toNat / 262144 - 240) * 262144
              + (128 + c.toNat / 4096 % 64 - 128) * 4096
              + (128 + c.toNat / 64 % 64 - 128) * 64 + (128 + c.toNat % 64 - 128)) :: cs)
              (utf8DecodeAux fuel rest)
          else none) = Option.map (fun cs => c :: cs) (utf8DecodeAux fuel rest)
        rw [if_pos (by omega)]
        have harith : (240 + c.toNat / 262144 - 240) * 262144
            + (128 + c.toNat / 4096 % 64 - 128) * 4096
            + (128 + c.toNat / 64 % 64 - 128) * 64 + (128 + c.toNat % 64 - 128)
            = c.toNat := by omega
        simp only [harith, Char.ofNat_toNat]

theorem utf8Encode_length (cs : List Char) : cs.length ≤ (utf8Encode cs).length := by
  induction cs with
  | nil => simp [utf8Encode]
  | cons c tl ih =>
    rw [show utf8Encode (c :: tl) = utf8Char c ++ utf8Encode tl from rfl]
    have h1 : 1 ≤ (utf8Char c).length := by
      unfold utf8Char
      simp only []
      split_ifs <;> simp
    simp only [List.length_append, List.length_cons]
    omega

theorem utf8DecodeAux_utf8Encode (cs : List Char) : ∀ fuel, cs.length + 1 ≤ fuel →
    utf8DecodeAux fuel (utf8Encode cs) = some cs := by
  induction cs with
  | nil =>
    intro fuel hf
    match fuel, hf with
    | f + 1, _ => rfl
  | cons c tl ih =>
    intro fuel hf
    match fuel, hf with
    | f + 1, hf =>
      rw [show utf8Encode (c :: tl) = utf8Char c ++ utf8Encode tl from rfl,
        utf8DecodeAux_char]
      rw [ih f (by simp at hf; omega)]
      rfl

theorem utf8Decode_utf8Encode (cs : List Char) : utf8Decode (utf8Encode cs) = some cs := by
  rw [utf8Decode]
  exact utf8DecodeAux_utf8Encode cs _ (by have := utf8Encode_length cs; omega)

/-! ## The string-level base64url codec of `utils.ts` -/

/-- `base64urlEncode` from the sources: UTF-8 bytes of the string, base64url
encoded without padding (the Node `Buffer`/browser `btoa` path). -/
def base64urlEncode (s : String) : String :=
  String.mk (b64Encode (utf8Encode s.data))

/-- `base64urlDecode` from the sources, as a partial function: strict base64url
decoding followed by UTF-8 decoding; `none` models the thrown decoding error. -/
def base64urlDecode (s : String) : Option String :=
  (b64Decode s.data).bind (fun bs => (utf8Decode bs).map String.mk)

theorem base64urlDecode_encode (s : String) :
    base64urlDecode (base64urlEncode s) = some s := by
  rw [base64urlEncode, base64urlDecode]
  rw [show (String.mk (b64Encode (utf8Encode s.data))).data
      = b64Encode (utf8Encode s.data) from rfl]
  rw [b64Decode_b64Encode _ (utf8Encode_lt256 s.data)]
  show (utf8Decode (utf8Encode s.data)).map String.mk = some s
  rw [utf8Decode_utf8Encode]
  rfl

theorem base64urlEncode_no_dot_colon (s : String) :
    ∀ c ∈ (base64urlEncode s).data, c ≠ '.' ∧ c ≠ ':' := by
  intro c hc
  rw [show (base64urlEncode s).data = b64Encode (utf8Encode s.data) from rfl] at hc
  exact b64Encode_ne_dot_colon _ (utf8Encode_lt256 s.data) c hc

/-! ## `String.split` -/

/-- JavaScript `String.prototype.split` with a single-character separator. -/
def splitChar : List Char → Char → List (List Char)
  | [], _ => [[]]
  | c :: rest, sep =>
    if c = sep then [] :: splitChar rest sep
    else
      match splitChar rest sep with
      | [] => [[c]]
      | g :: gs => (c :: g) :: gs

/-- `s.split(sep)` for a one-character separator string. -/
def jsSplit (s : String) (sep : Char) : List String :=
  (splitChar s.data sep).map String.mk

theorem splitChar_ne_nil (cs : List Char) (sep : Char) : splitChar cs sep ≠ [] := by
  cases cs with
  | nil => simp [splitChar]
  | cons c rest =>
    rw [show splitChar (c :: rest) sep
        = (if c = sep then [] :: splitChar rest sep
          else
            match splitChar rest sep with
            | [] => [[c]]
            | g :: gs => (c :: g) :: gs) from rfl]
    split_ifs
    · simp
    · cases splitChar rest sep <;> simp

theorem splitChar_no_sep (cs : List Char) (sep : Char) (h : sep ∉ cs) :
    splitChar cs sep = [cs] := by
  induction cs with
  | nil => rfl
  | cons c rest ih =>
    have hc : c ≠ sep := fun he => h (he ▸ List.mem_cons_self c rest)
    have hrest : sep ∉ rest := fun hm => h (List.mem_cons_of_mem c hm)
    rw [show splitChar (c :: rest) sep
        = (if c = sep then [] :: splitChar rest sep
          else
            match splitChar rest sep with
            | [] => [[c]]
            | g :: gs => (c :: g) :: gs) from rfl]
    rw [if_neg hc, ih hrest]

theorem splitChar_append (xs ys : List Char) (sep : Char) (h : sep ∉ xs) :
    splitChar (xs ++ sep :: ys) sep = xs :: splitChar ys sep := by
  induction xs with
  | nil =>
    rw [List.nil_append]
    rw [show splitChar (sep :: ys) sep
        = (if sep = sep then [] :: splitChar ys sep
          else
            match splitChar ys sep with
            | [] => [[sep]]
            | g :: gs => (sep :: g) :: gs) from rfl]
    rw [if_pos rfl]
  | cons x xs ih =>
    have hx : x ≠ sep := fun he => h (he ▸ List.mem_cons_self x xs)
    have hxs : sep ∉ xs := fun hm => h (List.mem_cons_of_mem x hm)
    rw [List.cons_append]
    rw [show splitChar (x :: (xs ++ sep :: ys)) sep
        = (if x = sep then [] :: splitChar (xs ++ sep :: ys) sep
          else
            match splitChar (xs ++ sep :: ys) sep with
            | [] => [[x]]
            | g :: gs => (x :: g) :: gs) from rfl]
    rw [if_neg hx, ih hxs]

/-- Splitting `a ++ "." ++ b ++ "." ++ c` on `'.'` yields exactly the three
segments, provided none of them contains a dot.  This is the shape every JWT
produced by the engine has. -/
theorem jsSplit_three (a b c : String) (sep : Char)
    (ha : sep ∉ a.data) (hb : sep ∉ b.data) (hc : sep ∉ c.data) :
    jsSplit (a ++ String.mk [sep] ++ b ++ String.mk [sep] ++ c) sep = [a, b, c] := by
  rw [jsSplit]
  rw [show (a ++ String.mk [sep] ++ b ++ String.mk [sep] ++ c).data
      = a.data ++ sep :: (b.data ++ sep :: c.data) by
    simp [String.data_append]]
  rw [splitChar_append _ _ _ ha, splitChar_append _ _ _ hb, splitChar_no_sep _ _ hc]
  simp [string_mk_data]

/-! ## `Date` parsing

Models `new Date(isoString).getTime()` for the UTC ISO-8601 strings the
engine produces and consumes: `YYYY-MM-DD` (midnight UTC) or
`YYYY-MM-DDTHH:MM:SS(.mmm)?Z`.  Returns `none` for anything else, modelling
an invalid date (`NaN`). -/

/-- Read two decimal digits. -/
def parse2 : List Char → Option (Nat × List Char)
  | a :: b :: r =>
    if isDigitC a && isDigitC b then some ((a.toNat - 48) * 10 + (b.toNat - 48), r)
    else none
  | _ => none

/-- Read four decimal digits. -/
def parse4 : List Char → Option (Nat × List Char)
  | a :: b :: c :: d :: r =>
    if isDigitC a && isDigitC b && isDigitC c && isDigitC d then
      some ((a.toNat - 48) * 1000 + (b.toNat - 48) * 100
        + (c.toNat - 48) * 10 + (d.toNat - 48), r)
    else none
  | _ => none

/-- Expect one specific character. -/
def expectC (c : Char) : List Char → Option (List Char)
  | x :: r => if x = c then some r else none
  | [] => none

/-- Gregorian leap year. -/
def isLeap (y : Int) : Bool := (y % 4 == 0 && y % 100 != 0) || y % 400 == 0

/-- Days in a month. -/
def daysInMonth (y : Int) (m : Nat) : Nat :=
  if m = 1 then 31 else if m = 2 then (if isLeap y then 29 else 28)
  else if m = 3 then 31 else if m = 4 then 30 else if m = 5 then 31
  else if m = 6 then 30 else if m = 7 then 31 else if m = 8 then 31
  else if m = 9 then 30 else if m = 10 then 31 else if m = 11 then 30
  else 31

/-- Days since the Unix epoch of a civil date (standard era-based algorithm
over truncated integer division). -/
def daysFromCivil (y : Int) (m d : Nat) : Int :=
  let y2 : Int := if m ≤ 2 then y - 1 else y
  let era : Int := (if 0 ≤ y2 then y2 else y2 - 399) / 400
  let yoe : Int := y2 - era * 400
  let doy : Int := (153 * ((m : Int) + (if 2 < m then -3 else 9)) + 2) / 5 + ((d : Int) - 1)
  let doe : Int := yoe * 365 + yoe / 4 - yoe / 100 + doy
  era * 146097 + doe - 719468

/-- `new Date(s).getTime()` on UTC ISO-8601 strings; `none` models `NaN`. -/
def jsDateGetTime (s : String) : Option Int := do
  let (y, r1) ← parse4 s.data
  let r2 ← expectC (Char.ofNat 45) r1
  let (mo, r3) ← parse2 r2
  let r4 ← expectC (Char.ofNat 45) r3
  let (d, r5) ← parse2 r4
  if 1 ≤ mo ∧ mo ≤ 12 ∧ 1 ≤ d ∧ d ≤ daysInMonth (y : Int) mo then
    match r5 with
    | [] => some (daysFromCivil (y : Int) mo d * 86400000)
    | t :: r6 =>
      if t = 'T' then do
        let (hh, r7) ← parse2 r6
        let r8 ← expectC ':' r7
        let (mi, r9) ← parse2 r8
        let r10 ← expectC ':' r9
        let (ss, r11) ← parse2 r10
        let (ms, r12) ← (match r11 with
          | p :: r12 =>
            if p = '.' then
              (match r12 with
              | a :: b :: c :: r13 =>
                if isDigitC a && isDigitC b && isDigitC c then
                  some ((a.toNat - 48) * 100 + (b.toNat - 48) * 10 + (c.toNat - 48), r13)
                else none
              | _ => none)
            else some (0, p :: r12)
          | [] => none)
        let r14 ← expectC 'Z' r12
        if r14 = [] ∧ hh < 24 ∧ mi < 60 ∧ ss < 60 then
          some (daysFromCivil (y : Int) mo d * 86400000
            + (hh : Int) * 3600000 + (mi : Int) * 60000 + (ss : Int) * 1000 + (ms : Int))
        else none
      else none
  else none

/-! ## JavaScript value plumbing

JavaScript objects are ordered association lists whose values may be
`undefined` (`none`). -/

/-- A JavaScript value slot: `none` models `undefined`. -/
abbrev JsVal := Option Json

/-- A JavaScript object, e.g. a credential: ordered fields, possibly
`undefined`-valued. -/
abbrev JsObj := List (String × JsVal)

/-- JavaScript truthiness of a defined value. -/
def jsTruthy : Json → Bool
  | .null => false
  | .bool b => b
  | .num n => n != 0
  | .str s => s != ""
  | .arr _ => true
  | .obj _ => true

/-- JavaScript truthiness (`undefined` is falsy). -/
def jsTruthyU : JsVal → Bool
  | none => false
  | some j => jsTruthy j

/-- Read a field of a JavaScript object (`undefined` when absent). -/
def objGet : JsObj → String → JsVal
  | [], _ => none
  | (k2, v) :: tl, k => if k2 = k then v else objGet tl k

/-- Assign a field of a JavaScript object: existing keys keep their position,
new keys are appended (JavaScript insertion-order semantics). -/
def objSet : JsObj → String → JsVal → JsObj
  | [], k, v => [(k, v)]
  | (k2, v2) :: tl, k, v =>
    if k2 = k then (k2, v) :: tl else (k2, v2) :: objSet tl k v

/-- Remove a field, as the rest-spread `{ proof: _, ...rest }` does. -/
def objRemove (o : JsObj) (k : String) : JsObj :=
  o.filter (fun p => p.1 != k)

/-- The `JSON`-visible members of an object: `undefined`-valued fields are
dropped, order preserved — exactly what `JSON.stringify` serializes. -/
def objDefined : JsObj → JsonMembers
  | [] => .nil
  | (k, some v) :: tl => .cons k v (objDefined tl)
  | (_, none) :: tl => objDefined tl

/-- Member lookup in a JSON object value. -/
def jmLookup : JsonMembers → String → JsVal
  | .nil, _ => none
  | .cons k v tl, p => if k = p then some v else jmLookup tl p

/-- Property access on a defined value: throws (`error`) on `null`, yields
the member for objects and `undefined` for other receivers. -/
def jsProp : Json → String → Except String JsVal
  | .null, p => .error ("Cannot read properties of null (reading '" ++ p ++ "')")
  | .obj m, p => .ok (jmLookup m p)
  | _, _ => .ok none

/-- Property access `v.p` with JavaScript semantics: throws on
`undefined`/`null` receivers. -/
def jsPropU : JsVal → String → Except String JsVal
  | none, p => .error ("Cannot read properties of undefined (reading '" ++ p ++ "')")
  | some j, p => jsProp j p

/-- Total property access on a value known not to be `null`/`undefined`. -/
def jsPropSafe (j : Json) (p : String) : JsVal :=
  match j with
  | .obj m => jmLookup m p
  | _ => none

/-- Decimal string of an index, for `Object.entries` over arrays/strings. -/
def natStr (n : Nat) : String := String.mk (natChars n)

/-- `Object.entries`: own enumerable entries of a value (objects keep
insertion order; arrays and strings enumerate indices; primitives have
none). -/
def jsEntries (j : Json) : List (String × Json) :=
  match j with
  | .obj m => m.toList
  | .arr l => (l.toList.enum).map (fun p => (natStr p.1, p.2))
  | .str s => (s.data.enum).map (fun p => (natStr p.1, Json.str (String.mk [p.2])))
  | _ => []

/-- `JSON.stringify` of a possibly-`undefined` value: `JSON.stringify(undefined)`
is the value `undefined` (`none`), never a string. -/
def stringifyU : JsVal → Option String
  | none => none
  | some j => some (jsonStringify j)

/-- String coercion as in template literals.  (Array joins beyond the empty
array are not modelled; the engine only interpolates strings and
`undefined` here.) -/
def jsToString : JsVal → String
  | none => "undefined"
  | some .null => "null"
  | some (.bool true) => "true"
  | some (.bool false) => "false"
  | some (.num n) => String.mk (intChars n)
  | some (.str s) => s
  | some (.arr _) => ""
  | some (.obj _) => "[object Object]"

/-! ## `Result` (src/result.ts is re-exported by the sources; the two variants
carry a success value or an error message, with `success`/`isSuccess`
projections as used by `key.ts` and `credential.ts` respectively). -/

inductive Result (α : Type) where
  | ok (value : α) : Result α
  | fail (error : String) : Result α
deriving DecidableEq

/-- The `success` flag of the pure-function `Result`. -/
def Result.success {α : Type} : Result α → Bool
  | .ok _ => true
  | .fail _ => false

/-- The `isSuccess` flag of the unit `Result`. -/
def Result.isSuccess {α : Type} (r : Result α) : Bool := r.success

/-- The outcome record produced on successful verification. -/
structure VerificationResult where
  verified : Bool
  issuer : JsVal
  subject : JsVal
  issuanceDate : JsVal
  expirationDate : JsVal
deriving DecidableEq

/-- `CredentialIssueOptions` (fields as used by the sources; the declaring
file `types-base.ts` is not part of the source tree). -/
structure CredentialIssueOptions where
  vcId : Option String := none
  issuanceDate : Option String := none
  expirationDate : Option String := none
  meta : Option Json := none
  context : Option (List String) := none
  proofFormat : Option String := none
deriving DecidableEq

/-- `CredentialVerifyOptions` (fields as used by the sources). -/
structure CredentialVerifyOptions where
  checkExpiration : Option Bool := none
  expectedIssuer : Option String := none
deriving DecidableEq

/-! ## `key.ts`: the Key abstraction -/

/-- The `Signer` interface: an external signing capability. -/
structure Signer where
  sign : String → String
  getPublicKey : String

/-- The `Key` class.  `privateKeyHex`/`signer` are optional: a key holding
neither is public-only. -/
structure Key where
  id : String
  publicKeyHex : String
  privateKeyHex : Option String := none
  type : String := "Ed25519"
  signer : Option Signer := none

/-- Truthiness of the optional `privateKeyHex` string field, as the guards
`!!(this.privateKeyHex || ...)` and `if (this.privateKeyHex)` evaluate it:
an absent field and the empty string are both falsy. -/
def privTruthy : Option String → Bool
  | none => false
  | some s => s != ""

/-- `Key.canSign`: `!!(this.privateKeyHex || this.signer)` — true iff the key
holds truthy (non-empty) private material or a delegate signer. -/
def Key.canSign (k : Key) : Bool :=
  privTruthy k.privateKeyHex || k.signer.isSome

/-- `Key.sign`: `if (this.signer)` delegate to it; else `if
(this.privateKeyHex)` (truthy, so non-empty) sign with the stand-in scheme
`base64urlEncode(data + ":" + privateKeyHex)`; else throw. -/
def Key.sign (k : Key) (data : String) : Except String String :=
  match k.signer with
  | some s => .ok (s.sign data)
  | none =>
    match k.privateKeyHex with
    | some priv =>
      if priv = "" then .error "Key cannot sign: no private key or signer available"
      else .ok (base64urlEncode (data ++ ":" ++ priv))
    | none => .error "Key cannot sign: no private key or signer available"

/-- `Key.verify` (and identically `createSimpleKeyManager().verify` in
`credential-service.ts`): decode the signature, split on `:` and compare the
first segment with the data.  The receiver's key material is never
consulted; a failed decode returns `false` (the `catch`). -/
def Key.verify (_k : Key) (data signature : String) : Bool :=
  match base64urlDecode signature with
  | some decoded =>
    match jsSplit decoded ':' with
    | originalData :: _ => originalData == data
    | [] => false
  | none => false

/-- The `DirectSigner` class: a `Signer` backed by direct key material, using
the same stand-in scheme as `Key.sign`. -/
def DirectSigner (privateKeyHex publicKeyHex : String) : Signer :=
  { sign := fun data => base64urlEncode (data ++ ":" ++ privateKeyHex)
    getPublicKey := publicKeyHex }

/-- The value reaching `createJWTProof`'s `key` parameter.  In `issueVC` the
source calls `createJWTProof(payload, issuerDid)`, so a plain string can
arrive in this position; calling `.canSign()` on it then throws. -/
inductive CredentialKeyArg where
  | key (k : Key)
  | str (s : String)

/-- Evaluate `key.canSign()` on the argument: on a string, `key.canSign` is
`undefined` and the call throws a `TypeError`. -/
def CredentialKeyArg.canSignCall : CredentialKeyArg → Except String Bool
  | .key k => .ok k.canSign
  | .str _ => .error "key.canSign is not a function"

/-- Evaluate `key.sign(data)` on the argument. -/
def CredentialKeyArg.signCall : CredentialKeyArg → String → Except String String
  | .key k, data => k.sign data
  | .str _, _ => .error "key.sign is not a function"

/-! ## Pure credential functions (`key.ts`, second half) -/

/-- The single default W3C context. -/
def DEFAULT_CONTEXT : List String := ["https://www.w3.org/2018/credentials/v1"]

/-- `generateCredentialId`; `cuid` stands for the ambient `createId()` value. -/
def generateCredentialId (type : String) (cuid : String) : String :=
  "urn:synet:" ++ type ++ ":" ++ cuid

/-- The `string | string[]` type argument. -/
def typeArrayOf : Sum String (List String) → List String
  | .inl s => [s]
  | .inr l => l

/-- `createCredentialPayload`: the credential without proof, as an ordered
object.  `genCuid` and `nowIso` stand for the ambient `createId()` and
`new Date().toISOString()` values. -/
def createCredentialPayload (subject : Json) (type : Sum String (List String))
    (issuerDid : String) (options : CredentialIssueOptions)
    (genCuid : String) (nowIso : String) : JsObj :=
  let typeArray := typeArrayOf type
  let appType := match typeArray.find? (fun t => t != "VerifiableCredential") with
    | some t => if t = "" then "Generic" else t
    | none => "Generic"
  let context := match options.context with
    | some extra => DEFAULT_CONTEXT ++ extra
    | none => DEFAULT_CONTEXT
  let vcid := match options.vcId with
    | some v => if v = "" then generateCredentialId appType genCuid else v
    | none => generateCredentialId appType genCuid
  let issDate := match options.issuanceDate with
    | some v => if v = "" then nowIso else v
    | none => nowIso
  [("@context", some (Json.arr (JsonList.ofList (context.map Json.str)))),
   ("id", some (Json.str vcid)),
   ("type", some (Json.arr (JsonList.ofList
      (("VerifiableCredential" :: typeArray).map Json.str)))),
   ("issuer", some (Json.obj (.cons "id" (Json.str issuerDid) .nil))),
   ("issuanceDate", some (Json.str issDate)),
   ("expirationDate", options.expirationDate.map Json.str),
   ("credentialSubject", some subject),
   ("meta", options.meta)]

/-- `new Date(value).getTime()` for the values the engine feeds it. -/
def jsDateOfVal : JsVal → Option Int
  | some (.str s) => jsDateGetTime s
  | some (.num n) => some n
  | _ => none

/-- `Math.floor(new Date(v).getTime() / 1000)` as a JSON value: an invalid
date gives `NaN`, which `JSON.stringify` serializes as `null`. -/
def epochJson (v : JsVal) : Json :=
  match jsDateOfVal v with
  | some ms => Json.num (Int.fdiv ms 1000)
  | none => Json.null

/-- The fixed JWT header `{"alg":"EdDSA","typ":"JWT"}`. -/
def jwtHeaderJson : Json :=
  .obj (.cons "alg" (.str "EdDSA") (.cons "typ" (.str "JWT") .nil))

/-- The JWT payload object built by `createJWTProof`:
`{ vc, jti, nbf, iss, ...(exp) }`.  The `iss` fallback
`issuerDid || payload.issuer.id` can throw when the payload has no issuer. -/
def jwtPayloadObj (payload : JsObj) (issuerDid : Option String) :
    Except String JsObj := do
  let issV ← (match issuerDid with
    | some s =>
      if s = "" then jsPropU (objGet payload "issuer") "id"
      else pure (some (Json.str s))
    | none => jsPropU (objGet payload "issuer") "id")
  pure ([("vc", some (Json.obj (objDefined payload))),
    ("jti", objGet payload "id"),
    ("nbf", some (epochJson (objGet payload "issuanceDate"))),
    ("iss", issV)]
    ++ (if jsTruthyU (objGet payload "expirationDate") then
        [("exp", some (epochJson (objGet payload "expirationDate")))] else []))

/-- `createJWTProof` (pure path): canSign guard, signing input from the
serialized header/payload, stand-in signature, assembled proof object.
A `verificationMethod: undefined` member is modelled as an absent member
(`JSON`- and access-equivalent). -/
def createJWTProof (payload : JsObj) (key : CredentialKeyArg)
    (issuerDid : Option String) : Result Json :=
  match key.canSignCall with
  | .error e => .fail ("Failed to create JWT proof: " ++ e)
  | .ok canS =>
    if !canS then .fail "Key cannot sign: no private key or signer available"
    else
      match jwtPayloadObj payload issuerDid with
      | .error e => .fail ("Failed to create JWT proof: " ++ e)
      | .ok jp =>
        let headerB64 := base64urlEncode (jsonStringify jwtHeaderJson)
        let payloadB64 := base64urlEncode (jsonStringify (Json.obj (objDefined jp)))
        let signingInput := headerB64 ++ "." ++ payloadB64
        match key.signCall signingInput with
        | .error e => .fail ("Failed to create JWT proof: " ++ e)
        | .ok signature =>
          let jwt := signingInput ++ "." ++ signature
          .ok (Json.obj (.cons "type" (.str "JwtProof2020")
            (.cons "jwt" (.str jwt)
              (match issuerDid with
               | some s => .cons "verificationMethod" (.str s) .nil
               | none => .nil))))

/-- `issueVC`: builds the payload, then calls `createJWTProof(payload,
issuerDid)` — the source passes the issuer string where `createJWTProof`
expects the key (the key argument is dropped), so the `key` slot receives
`CredentialKeyArg.str issuerDid` and the proof's `issuerDid` parameter is
`undefined`. -/
def issueVC (subject : Json) (type : Sum String (List String)) (issuerDid : String)
    (options : CredentialIssueOptions) (genCuid : String) (nowIso : String) :
    Result JsObj :=
  let payload := createCredentialPayload subject type issuerDid options genCuid nowIso
  let proofFormat := match options.proofFormat with
    | some p => if p = "" then "jwt" else p
    | none => "jwt"
  if proofFormat = "jwt" then
    match createJWTProof payload (.str issuerDid) none with
    | .fail e => .fail ("Failed to create proof: " ++ e)
    | .ok proof => .ok (objSet payload "proof" (some proof))
  else .fail ("Unsupported proof format: " ++ proofFormat)

/-- JavaScript whitespace, as `ToNumber` trims it from string operands. -/
def isJsSpaceC (c : Char) : Bool :=
  c == ' ' || c == '\t' || c == '\n' || c == '\r' || c == '\x0c' || c == '\x0b'

/-- `ToNumber` of a string, on its characters (`none` = NaN): the trimmed
empty string is 0 and an optionally-signed decimal integer numeral is its
value.  Fractional, exponential, hexadecimal and `Infinity` numerals lie
outside this integer-valued embedding and are modelled as NaN. -/
def strToNumberChars (cs0 : List Char) : Option Int :=
  match ((cs0.dropWhile isJsSpaceC).reverse.dropWhile isJsSpaceC).reverse with
  | [] => some 0
  | '-' :: ds =>
    if !ds.isEmpty && ds.all isDigitC then some (-(decimalToNat ds : Int)) else none
  | '+' :: ds =>
    if !ds.isEmpty && ds.all isDigitC then some ((decimalToNat ds : Int)) else none
  | ds => if ds.all isDigitC then some ((decimalToNat ds : Int)) else none

mutual
/-- Element conversion used by `Array.prototype.join` (the `ToPrimitive`
route an array takes under `ToNumber`): `null` joins as the empty string,
nested arrays join recursively, objects print as `[object Object]`. -/
def joinElemChars : Json → List Char
  | .null => []
  | .bool true => "true".data
  | .bool false => "false".data
  | .num n => intChars n
  | .str s => s.data
  | .arr l => joinChars l
  | .obj _ => "[object Object]".data

/-- Comma-joined elements, as `Array.prototype.toString` produces them. -/
def joinChars : JsonList → List Char
  | .nil => []
  | .cons x .nil => joinElemChars x
  | .cons x tl => joinElemChars x ++ ',' :: joinChars tl
end

/-- `ToNumber` of a defined JSON value (`none` = NaN), as the relational
comparison coerces its right operand. -/
def jsToNumber : Json → Option Int
  | .null => some 0
  | .bool true => some 1
  | .bool false => some 0
  | .num n => some n
  | .str s => strToNumberChars s.data
  | .arr l => strToNumberChars (joinChars l)
  | .obj _ => none

/-- The source's expiration comparison `now > jwtPayload.exp`: JavaScript
coerces the claim with `ToNumber`, and a NaN coercion compares false.  (An
`undefined` claim cannot reach the comparison — the truthiness guard
precedes it — and would coerce to NaN anyway.) -/
def jsGtNum (now : Int) (v : JsVal) : Bool :=
  match v with
  | some j =>
    match jsToNumber j with
    | some e => now > e
    | none => false
  | none => false

/-- `verifyJWTProof` (pure path, `key.ts`): parse the proof JWT, verify the
signature via the verification key over the signing input recomputed from
the token's own segments, then expiration and issuer checks.  No
field-binding comparison is performed on this path.  `nowMs` stands for
`Date.now()`.  Thrown errors inside the payload-handling `try` surface as
`Failed to parse JWT payload: …`, anything earlier as
`Failed to verify JWT proof: …`. -/
def verifyJWTProof (credential : JsObj) (verificationKey : Key)
    (options : CredentialVerifyOptions) (nowMs : Int) : Result VerificationResult :=
  let proof := objGet credential "proof"
  match jsPropU proof "jwt" with
  | .error e => .fail ("Failed to verify JWT proof: " ++ e)
  | .ok jwtV =>
    if !(jsTruthyU jwtV) then .fail "No JWT found in proof"
    else
      match jwtV with
      | some (.str jwtStr) =>
        let jwtParts := jsSplit jwtStr '.'
        if jwtParts.length != 3 then .fail "Invalid JWT format"
        else
          match jwtParts with
          | headerB64 :: payloadB64 :: signature :: _ =>
            let signingInput := headerB64 ++ "." ++ payloadB64
            match base64urlDecode payloadB64 with
            | none => .fail "Failed to parse JWT payload: Base64 decoding failed"
            | some decoded =>
              match jsonParse decoded with
              | none => .fail "Failed to parse JWT payload: Unexpected token"
              | some jwtPayload =>
                match jsProp jwtPayload "iss" with
                | .error e => .fail ("Failed to parse JWT payload: " ++ e)
                | .ok issuerDid =>
                  if !(verificationKey.verify signingInput signature) then
                    .fail "Invalid signature"
                  else
                    match jsProp jwtPayload "exp" with
                    | .error e => .fail ("Failed to parse JWT payload: " ++ e)
                    | .ok expV =>
                      if (options.checkExpiration != some false) && jsTruthyU expV
                          && jsGtNum (Int.fdiv nowMs 1000) expV then
                        .fail "Credential has expired"
                      else
                        let issuerMismatch := match options.expectedIssuer with
                          | some expIss =>
                            expIss != "" && !(issuerDid == some (Json.str expIss))
                          | none => false
                        if issuerMismatch then
                          .fail ("Unexpected issuer: " ++ jsToString issuerDid)
                        else
                          match jsPropU (objGet credential "credentialSubject") "holder" with
                          | .error e => .fail ("Failed to parse JWT payload: " ++ e)
                          | .ok holderV =>
                            match jsPropU holderV "id" with
                            | .error e => .fail ("Failed to parse JWT payload: " ++ e)
                            | .ok subjV =>
                              .ok { verified := true
                                    issuer := issuerDid
                                    subject := subjV
                                    issuanceDate := objGet credential "issuanceDate"
                                    expirationDate := objGet credential "expirationDate" }
          | _ => .fail "Invalid JWT format"
      | some _ => .fail "Failed to verify JWT proof: proof.jwt.split is not a function"
      | none => .fail "No JWT found in proof"

/-- `verifyVC` (pure path): dispatch on the proof type. -/
def verifyVC (verificationKey : Key) (credential : JsObj)
    (options : CredentialVerifyOptions) (nowMs : Int) : Result VerificationResult :=
  match objGet credential "proof" with
  | none =>
    .fail "Failed to verify credential: Cannot read properties of undefined (reading 'type')"
  | some Json.null =>
    .fail "Failed to verify credential: Cannot read properties of null (reading 'type')"
  | some pj =>
    let tV := jsPropSafe pj "type"
    let jwtV := jsPropSafe pj "jwt"
    if tV == some (Json.str "JwtProof2020") && jsTruthyU jwtV then
      verifyJWTProof credential verificationKey options nowMs
    else .fail ("Unsupported proof type: " ++ jsToString tV)

/-! ## The Credential unit (`credential.ts`)

The unit's learned capabilities (`sign`, `verify`, `getPublicKey`) are
modelled as a record of optional functions; `can("x")` is the presence of
the entry, and `execute("x", …)` applies it (throwing `Unknown capability`
inside the surrounding `try` when absent). -/

/-- The capabilities a `Credential` unit may have learned. -/
structure Caps where
  sign : Option (String → String) := none
  verify : Option (String → String → Bool) := none
  getPublicKey : Bool := false

/-- What a `@synet/keys` key unit teaches: `sign`/`verify` backed by the
key's own operations, plus `getPublicKey`.  Modelled from the spec: the
teacher package is external to this source tree, but its contract —
capabilities bound to the key's `sign`/`verify` — is fixed by the spec and
the repository's tests. -/
def Key.teachCaps (k : Key) : Caps :=
  { sign := match k.signer with
      | some s => some s.sign
      | none => match k.privateKeyHex with
        | some priv => some (fun data => base64urlEncode (data ++ ":" ++ priv))
        | none => none
    verify := some (fun data signature => k.verify data signature)
    getPublicKey := true }

/-- `Credential.createCredentialPayload`: the unit method's body is
line-for-line the module-level `createCredentialPayload` of `key.ts`. -/
def Credential.createCredentialPayload (subject : Json)
    (type : Sum String (List String)) (issuerDid : String)
    (options : CredentialIssueOptions) (genCuid : String) (nowIso : String) :
    JsObj :=
  Synet.createCredentialPayload subject type issuerDid options genCuid nowIso

/-- `Credential.createJWTProof` (private method): no `canSign` guard here;
signing goes through `execute("sign", …)`, and a falsy signature yields
`Failed to sign JWT proof`.  Thrown errors surface as
`Failed to create JWT proof: …`. -/
def Credential.createJWTProof (caps : Caps) (payload : JsObj)
    (issuerDid : Option String) : Result Json :=
  match jwtPayloadObj payload issuerDid with
  | .error e => .fail ("Failed to create JWT proof: " ++ e)
  | .ok jp =>
    let headerB64 := base64urlEncode (jsonStringify jwtHeaderJson)
    let payloadB64 := base64urlEncode (jsonStringify (Json.obj (objDefined jp)))
    let signingInput := headerB64 ++ "." ++ payloadB64
    match caps.sign with
    | none => .fail "Failed to create JWT proof: Unknown capability: sign"
    | some signFn =>
      let base64Signature := signFn signingInput
      if base64Signature = "" then .fail "Failed to sign JWT proof"
      else
        let jwt := signingInput ++ "." ++ base64Signature
        .ok (Json.obj (.cons "type" (.str "JwtProof2020")
          (.cons "jwt" (.str jwt)
            (match issuerDid with
             | some s => .cons "verificationMethod" (.str s) .nil
             | none => .nil))))

/-- `Credential.issueCredential`: capability guard, payload, proof via the
unit's `createJWTProof`, assembled credential. -/
def Credential.issueCredential (caps : Caps) (subject : Json)
    (type : Sum String (List String)) (issuerDid : String)
    (options : CredentialIssueOptions) (genCuid : String) (nowIso : String) :
    Result JsObj :=
  if !(caps.getPublicKey && caps.sign.isSome) then
    .fail "Cannot issue credential: missing getPublicKey or sign capability. Learn from a crypto unit."
  else
    let payload := Credential.createCredentialPayload subject type issuerDid
      options genCuid nowIso
    let proofFormat := match options.proofFormat with
      | some p => if p = "" then "jwt" else p
      | none => "jwt"
    if proofFormat = "jwt" then
      match Credential.createJWTProof caps payload (some issuerDid) with
      | .fail e => .fail ("Failed to create JWT proof: " ++ e)
      | .ok proof => .ok (objSet payload "proof" (some proof))
    else .fail ("Unsupported proof format: " ++ proofFormat)

/-- The field-binding loop of `Credential.verifyJWTProof`: for each entry of
the decoded `vc` claim, compare `JSON.stringify` of the credential's field
against `JSON.stringify` of the claim's field; returns the first
mismatching key.  Fields of the credential absent from the `vc` claim are
never visited. -/
def fieldLoop : List (String × Json) → JsObj → Option String
  | [], _ => none
  | (key, value) :: tl, cwp =>
    if stringifyU (objGet cwp key) != some (jsonStringify value) then some key
    else fieldLoop tl cwp

/-- `Credential.verifyJWTProof`: the unit's verification pipeline — JWT
shape, payload parse, signature via `execute("verify", …)`, `vc`-claim
field binding, required fields, expiration at second granularity, expected
issuer. -/
def Credential.verifyJWTProof (caps : Caps) (credential : JsObj)
    (options : CredentialVerifyOptions) (nowMs : Int) : Result VerificationResult :=
  let proof := objGet credential "proof"
  match jsPropU proof "jwt" with
  | .error e => .fail ("Failed to verify JWT proof: " ++ e)
  | .ok jwtV =>
    if !(jsTruthyU jwtV) then .fail "No JWT found in proof"
    else
      match jwtV with
      | some (.str jwtStr) =>
        let jwtParts := jsSplit jwtStr '.'
        if jwtParts.length != 3 then .fail "Invalid JWT format"
        else
          match jwtParts with
          | headerB64 :: payloadB64 :: base64urlSignature :: _ =>
            let signingInput := headerB64 ++ "." ++ payloadB64
            match base64urlDecode payloadB64 with
            | none => .fail "Failed to parse JWT payload: Base64 decoding failed"
            | some decoded =>
              match jsonParse decoded with
              | none => .fail "Failed to parse JWT payload: Unexpected token"
              | some jwtPayload =>
                match jsProp jwtPayload "iss" with
                | .error e => .fail ("Failed to parse JWT payload: " ++ e)
                | .ok issuerDid =>
                  match caps.verify, caps.getPublicKey with
                  | some verifyFn, true =>
                    if !(verifyFn signingInput base64urlSignature) then
                      .fail "Invalid signature"
                    else
                      match jsProp jwtPayload "vc" with
                      | .error e => .fail ("Failed to parse JWT payload: " ++ e)
                      | .ok expectedVcV =>
                        if !(jsTruthyU expectedVcV) then
                          .fail "Missing vc claim in JWT payload"
                        else
                          match expectedVcV with
                          | some expectedVc =>
                            let credentialWithoutProof := objRemove credential "proof"
                            match fieldLoop (jsEntries expectedVc) credentialWithoutProof with
                            | some badKey =>
                              .fail ("JWT payload field \"" ++ badKey
                                ++ "\" does not match credential data")
                            | none =>
                              if !(jsTruthyU (objGet credentialWithoutProof "id"))
                                  || !(jsTruthyU (objGet credentialWithoutProof "issuer"))
                                  || !(jsTruthyU (objGet credentialWithoutProof "issuanceDate")) then
                                .fail "Missing required credential fields"
                              else
                                match jsProp jwtPayload "exp" with
                                | .error e => .fail ("Failed to parse JWT payload: " ++ e)
                                | .ok expV =>
                                  if (options.checkExpiration != some false)
                                      && jsTruthyU expV
                                      && jsGtNum (Int.fdiv nowMs 1000) expV then
                                    .fail "Credential has expired"
                                  else
                                    let issuerMismatch := match options.expectedIssuer with
                                      | some expIss =>
                                        expIss != "" && !(issuerDid == some (Json.str expIss))
                                      | none => false
                                    if issuerMismatch then
                                      .fail ("Unexpected issuer: " ++ jsToString issuerDid)
                                    else
                                      match jsPropU (objGet credential "credentialSubject") "holder" with
                                      | .error e => .fail ("Failed to parse JWT payload: " ++ e)
                                      | .ok holderV =>
                                        match jsPropU holderV "id" with
                                        | .error e => .fail ("Failed to parse JWT payload: " ++ e)
                                        | .ok subjV =>
                                          .ok { verified := true
                                                issuer := issuerDid
                                                subject := subjV
                                                issuanceDate := objGet credential "issuanceDate"
                                                expirationDate := objGet credential "expirationDate" }
                          | none => .fail "Missing vc claim in JWT payload"
                  | _, _ => .fail "Missing getPublicKey or verify capability"
          | _ => .fail "Invalid JWT format"
      | some _ => .fail "Failed to verify JWT proof: proof.jwt.split is not a function"
      | none => .fail "No JWT found in proof"

/-- `Credential.verifyCredential`: capability guard, proof presence, proof
type dispatch into `verifyJWTProof`. -/
def Credential.verifyCredential (caps : Caps) (credential : JsObj)
    (options : CredentialVerifyOptions) (nowMs : Int) : Result VerificationResult :=
  if !(caps.getPublicKey && caps.verify.isSome) then
    .fail "Missing getPublicKey or verify capability"
  else
    match objGet credential "proof" with
    | none => .fail "Invalid credential: missing proof"
    | some pj =>
      if !(jsTruthy pj) then .fail "Invalid credential: missing proof"
      else
        let tV := jsPropSafe pj "type"
        let jwtV := jsPropSafe pj "jwt"
        if tV == some (Json.str "JwtProof2020") && jsTruthyU jwtV then
          Credential.verifyJWTProof caps credential options nowMs
        else .fail ("Unsupported proof type: " ++ jsToString tV)

/-! ## A concrete issued credential

The spec's running scenario: subject `{holder:{id:"did:x:alice"}}`, type
`"IdentityCredential"`, issuer `"did:x:issuer"`, issued by a unit that
learned from a private-material key. -/

def exKey : Key := { id := "k1", publicKeyHex := "pubhex", privateKeyHex := some "privhex" }

def exCaps : Caps := exKey.teachCaps

def exSubject : Json :=
  .obj (.cons "holder" (.obj (.cons "id" (.str "did:x:alice") .nil)) .nil)

def exIssue : Result JsObj :=
  Credential.issueCredential exCaps exSubject (.inl "IdentityCredential")
    "did:x:issuer" {} "c1" "1970-01-01"

def exCred : JsObj := match exIssue with | .ok c => c | .fail _ => []

/-- The same scenario with an expiration date ten seconds into the epoch
(`exp` claim 10). -/
def exIssueExp : Result JsObj :=
  Credential.issueCredential exCaps exSubject (.inl "IdentityCredential")
    "did:x:issuer" { expirationDate := some "1970-01-01T00:00:10Z" } "c1" "1970-01-01"

def exCredExp : JsObj := match exIssueExp with | .ok c => c | .fail _ => []

/-! ## The claims -/

/-- C1: round-trip `verify(issue(key, subject, type, issuerId))` on the pure
path.  `issueVC` forwards `issuerDid` in `createJWTProof`'s `key` position
(its own `key` never reaches the call), so `key.canSign()` is a call on a
string and throws: issuance fails for every input whatsoever and the
round-trip never gets off the ground. -/
theorem issueVC_never_succeeds (subject : Json) (type : Sum String (List String))
    (issuerDid : String) (options : CredentialIssueOptions) (genCuid nowIso : String) :
    (issueVC subject type issuerDid options genCuid nowIso).success = false := by
  unfold issueVC
  rcases options.proofFormat with _ | p
  · simp [createJWTProof, CredentialKeyArg.canSignCall, Result.success]
  · by_cases hp : p = "" <;> by_cases hj : p = "jwt" <;>
      simp [hp, hj, createJWTProof, CredentialKeyArg.canSignCall, Result.success]

/-- C3: the verification outcome never depends on the verification key.
`Key.verify` (and the simple key manager's `verify`) only compares the
signature's embedded data segment with the signing input, so any two keys —
in particular one whose public material differs from the issuing key's —
produce identical results, at the key level and through the whole pure
verification path. -/
theorem verify_ignores_key_material (k1 k2 : Key) :
    (∀ data signature, k1.verify data signature = k2.verify data signature) ∧
    (∀ (credential : JsObj) (options : CredentialVerifyOptions) (nowMs : Int),
      verifyJWTProof credential k1 options nowMs = verifyJWTProof credential k2 options nowMs) :=
  ⟨fun _ _ => rfl, fun _ _ _ => rfl⟩

/-- C8: the `type` array of every issued payload has `"VerifiableCredential"`
as its first element, and the spec's concrete scenario — subject
`{holder:{id:"did:x:alice"}}`, type `"IdentityCredential"`, issuer
`"did:x:issuer"` — yields type
`["VerifiableCredential","IdentityCredential"]` and verifies with
`verified = true`. -/
theorem type_array_invariant_and_scenario :
    (∀ (subject : Json) (type : Sum String (List String)) (issuerDid : String)
      (options : CredentialIssueOptions) (genCuid nowIso : String),
      ∃ rest : JsonList,
        objGet (createCredentialPayload subject type issuerDid options genCuid nowIso) "type"
          = some (.arr (.cons (.str "VerifiableCredential") rest))) ∧
    objGet exCred "type" = some (.arr (JsonList.ofList
      [Json.str "VerifiableCredential", Json.str "IdentityCredential"])) ∧
    Credential.verifyCredential exCaps exCred {} 0
      = .ok { verified := true, issuer := some (.str "did:x:issuer"),
              subject := some (.str "did:x:alice"),
              issuanceDate := some (.str "1970-01-01"), expirationDate := none } := by
  refine ⟨fun subject type issuerDid options genCuid nowIso => ⟨_, rfl⟩, by decide, by decide⟩

/-- C7: a proof whose JWT string does not split into exactly three
dot-separated segments makes both verification paths return the failure
`Invalid JWT format` — a `Result`, not an exception (both embeddings are
total functions into `Result`). -/
theorem malformed_jwt_fails (caps : Caps) (cred : JsObj) (k : Key)
    (opts : CredentialVerifyOptions) (now : Int) (jwtStr : String)
    (hjwt : jsPropU (objGet cred "proof") "jwt" = .ok (some (.str jwtStr)))
    (hne : jwtStr ≠ "")
    (hlen : (jsSplit jwtStr '.').length ≠ 3) :
    Credential.verifyJWTProof caps cred opts now = .fail "Invalid JWT format" ∧
    verifyJWTProof cred k opts now = .fail "Invalid JWT format" := by
  constructor
  · simp only [Credential.verifyJWTProof]
    rw [hjwt]
    simp [jsTruthyU, jsTruthy, hne, hlen]
  · simp only [verifyJWTProof]
    rw [hjwt]
    simp [jsTruthyU, jsTruthy, hne, hlen]

/-- Witness for C7: the spec's two-segment scenario `"a.b"`. -/
theorem malformed_jwt_fails_witness :
    Credential.verifyJWTProof exCaps
        [("proof", some (Json.obj (.cons "jwt" (.str "a.b") .nil)))] {} 0
      = .fail "Invalid JWT format" ∧
    verifyJWTProof [("proof", some (Json.obj (.cons "jwt" (.str "a.b") .nil)))]
        exKey {} 0
      = .fail "Invalid JWT format" :=
  malformed_jwt_fails exCaps
    [("proof", some (Json.obj (.cons "jwt" (.str "a.b") .nil)))] exKey {} 0 "a.b"
    rfl (by decide) (by decide)

/-- A string starting with `F` (after a wrapped-error prefix) never equals a
message starting otherwise. -/
theorem fpj_ne (e msg : String) (hm : msg.data.head? ≠ some 'F') :
    ("Failed to parse JWT payload: " ++ e) ≠ msg := by
  intro h
  have h2 : ("Failed to parse JWT payload: " ++ e).data.head? = some 'F' := rfl
  rw [h] at h2
  exact hm h2

theorem fvj_ne (e msg : String) (hm : msg.data.head? ≠ some 'F') :
    ("Failed to verify JWT proof: " ++ e) ≠ msg := by
  intro h
  have h2 : ("Failed to verify JWT proof: " ++ e).data.head? = some 'F' := rfl
  rw [h] at h2
  exact hm h2

theorem ui_ne (s msg : String) (hm : msg.data.head? ≠ some 'U') :
    ("Unexpected issuer: " ++ s) ≠ msg := by
  intro h
  have h2 : ("Unexpected issuer: " ++ s).data.head? = some 'U' := rfl
  rw [h] at h2
  exact hm h2

theorem jpf_ne (s msg : String) (hm : msg.data.head? ≠ some 'J') :
    ("JWT payload field \"" ++ s ++ "\" does not match credential data") ≠ msg := by
  intro h
  have h2 : ("JWT payload field \"" ++ s ++ "\" does not match credential data").data.head?
      = some 'J' := rfl
  rw [h] at h2
  exact hm h2

/-- Reading any key other than the assigned one is unchanged. -/
theorem objGet_objSet_ne (o : JsObj) (k k2 : String) (v : JsVal) (h : k ≠ k2) :
    objGet (objSet o k v) k2 = objGet o k2 := by
  induction o with
  | nil => simp [objSet, objGet, h]
  | cons p tl ih =>
    obtain ⟨k3, v3⟩ := p
    by_cases h3 : k3 = k
    · subst h3
      simp [objSet, objGet, h]
    · simp [objSet, objGet, h3, ih]

/-- Reading through a removal. -/
theorem objGet_objRemove (o : JsObj) (p x : String) :
    objGet (objRemove o p) x = if x = p then none else objGet o x := by
  induction o with
  | nil => simp [objRemove, objGet]
  | cons q tl ih =>
    obtain ⟨k3, v3⟩ := q
    have hstep : objRemove ((k3, v3) :: tl) p
        = if k3 = p then objRemove tl p else (k3, v3) :: objRemove tl p := by
      simp only [objRemove, List.filter_cons]
      by_cases h3 : k3 = p <;> simp [h3, bne_iff_ne]
    rw [hstep]
    by_cases h3 : k3 = p
    · rw [if_pos h3, ih]
      by_cases hx : x = p
      · simp [hx]
      · have hk3x : ¬ (k3 = x) := fun he => hx (he ▸ h3)
        rw [if_neg hx, if_neg hx, objGet, if_neg hk3x]
    · rw [if_neg h3, objGet]
      by_cases hk3x : k3 = x
      · subst hk3x
        rw [if_pos rfl, if_neg h3, objGet, if_pos rfl]
      · rw [if_neg hk3x, ih]
        by_cases hx : x = p
        · simp [hx]
        · rw [if_neg hx, if_neg hx, objGet, if_neg hk3x]

/-- The field-binding loop passes exactly when every listed entry matches. -/
theorem fieldLoop_eq_none (l : List (String × Json)) (cwp : JsObj) :
    fieldLoop l cwp = none ↔
      ∀ kv ∈ l, stringifyU (objGet cwp kv.1) = some (jsonStringify kv.2) := by
  induction l with
  | nil => simp [fieldLoop]
  | cons kv tl ih =>
    obtain ⟨key, value⟩ := kv
    by_cases hx : stringifyU (objGet cwp key) = some (jsonStringify value)
    · simp [fieldLoop, hx, ih]
    · simp [fieldLoop, hx]

/-- Assigning a key the loop's entries never mention (one undefined in the
compared object while the loop passes) cannot break the loop. -/
theorem fieldLoop_objSet_new (l : List (String × Json)) (cwp : JsObj) (k : String)
    (w : JsVal) (hl : fieldLoop l cwp = none) (hk : objGet cwp k = none) :
    fieldLoop l (objSet cwp k w) = none := by
  rw [fieldLoop_eq_none] at hl ⊢
  intro kv hmem
  by_cases hkk : k = kv.1
  · exfalso
    have := hl kv hmem
    rw [← hkk, hk] at this
    simp [stringifyU] at this
  · rw [objGet_objSet_ne _ _ _ _ hkk]
    exact hl kv hmem

/-- C10: the pure verification path reads nothing of the credential beyond
`proof`, `credentialSubject`, `issuanceDate` and `expirationDate` — in
particular it never compares the outer fields against the signed `vc` claim:
two credentials agreeing on those four fields verify identically, a
credential whose `credentialSubject` was swapped after issuance still
passes the pure path, while the unit path's field binding rejects it. -/
theorem pure_path_has_no_field_binding :
    (∀ (cred1 cred2 : JsObj) (k : Key) (opts : CredentialVerifyOptions) (now : Int),
      objGet cred1 "proof" = objGet cred2 "proof" →
      objGet cred1 "credentialSubject" = objGet cred2 "credentialSubject" →
      objGet cred1 "issuanceDate" = objGet cred2 "issuanceDate" →
      objGet cred1 "expirationDate" = objGet cred2 "expirationDate" →
      verifyJWTProof cred1 k opts now = verifyJWTProof cred2 k opts now) ∧
    (verifyJWTProof
        (objSet exCred "credentialSubject"
          (some (.obj (.cons "holder" (.obj (.cons "id" (.str "did:x:mallory") .nil)) .nil))))
        exKey {} 0).success = true ∧
    Credential.verifyJWTProof exCaps
        (objSet exCred "credentialSubject"
          (some (.obj (.cons "holder" (.obj (.cons "id" (.str "did:x:mallory") .nil)) .nil))))
        {} 0
      = .fail ("JWT payload field \"" ++ "credentialSubject"
          ++ "\" does not match credential data") := by
  refine ⟨fun cred1 cred2 k opts now h1 h2 h3 h4 => ?_, by decide, by decide⟩
  simp only [verifyJWTProof]
  rw [h1, h2, h3, h4]

/-- Witness for C10: two one-proof credentials differing in an extra field. -/
theorem pure_path_has_no_field_binding_witness :
    verifyJWTProof [("proof", some Json.null)] exKey {} 0
      = verifyJWTProof [("proof", some Json.null), ("x", some (Json.str "y"))] exKey {} 0 :=
  pure_path_has_no_field_binding.1 _ _ exKey {} 0 rfl rfl rfl rfl

/-- C6: a key holding neither private material nor a signer reports
`canSign = false` and fails to sign with the no-material error, yet still
verifies any signature the stand-in scheme produces over colon-free data;
`canSign` is true exactly when the key holds truthy — non-empty — private
material or a signer.  (Two provisos the source forces: the scheme splits
the decoded signature on `:`, so data containing `:` breaks even honest
verification; and the truthiness guards make an empty-string
`privateKeyHex` count as no private material.) -/
theorem public_only_keys (k : Key) (hpriv : k.privateKeyHex = none)
    (hsig : k.signer = none) :
    k.canSign = false ∧
    (∀ data, k.sign data = .error "Key cannot sign: no private key or signer available") ∧
    (∀ (priv data : String), ':' ∉ data.data →
      k.verify data (base64urlEncode (data ++ ":" ++ priv)) = true) ∧
    (∀ k2 : Key, k2.canSign = true ↔
      ((∃ p, k2.privateKeyHex = some p ∧ p ≠ "") ∨ k2.signer.isSome = true)) := by
  refine ⟨by simp [Key.canSign, privTruthy, hpriv, hsig],
    fun data => by simp [Key.sign, hpriv, hsig],
    fun priv data hc => ?_, fun k2 => ?_⟩
  · show (match base64urlDecode (base64urlEncode (data ++ ":" ++ priv)) with
      | some decoded =>
        match jsSplit decoded ':' with
        | originalData :: _ => originalData == data
        | [] => false
      | none => false) = true
    rw [base64urlDecode_encode]
    show (match jsSplit (data ++ ":" ++ priv) ':' with
      | originalData :: _ => originalData == data
      | [] => false) = true
    have hdata : (data ++ ":" ++ priv).data = data.data ++ ':' :: priv.data := by
      simp [String.data_append]
    have hsplit : jsSplit (data ++ ":" ++ priv) ':'
        = data :: (splitChar priv.data ':').map String.mk := by
      rw [jsSplit, hdata, splitChar_append _ _ _ hc]
      simp [string_mk_data]
    rw [hsplit]
    simp
  · rcases hk : k2.privateKeyHex with _ | p
    · simp [Key.canSign, privTruthy, hk]
    · by_cases hp : p = "" <;> simp [Key.canSign, privTruthy, hk, hp]

/-- Witness for C6: a concrete public-only key. -/
theorem public_only_keys_witness :
    ({ id := "pk", publicKeyHex := "pub" } : Key).canSign = false ∧
    (∀ data, ({ id := "pk", publicKeyHex := "pub" } : Key).sign data
      = .error "Key cannot sign: no private key or signer available") ∧
    (∀ (priv data : String), ':' ∉ data.data →
      ({ id := "pk", publicKeyHex := "pub" } : Key).verify data
        (base64urlEncode (data ++ ":" ++ priv)) = true) ∧
    (∀ k2 : Key, k2.canSign = true ↔
      ((∃ p, k2.privateKeyHex = some p ∧ p ≠ "") ∨ k2.signer.isSome = true)) :=
  public_only_keys { id := "pk", publicKeyHex := "pub" } rfl rfl

/-- Counterexample for C6 as stated: over data containing a colon, even the
signature honestly produced by the private-material key itself fails to
verify. -/
theorem colon_data_defeats_verify :
    exKey.canSign = true ∧
    exKey.sign "a:b" = .ok (base64urlEncode ("a:b" ++ ":" ++ "privhex")) ∧
    exKey.verify "a:b" (base64urlEncode ("a:b" ++ ":" ++ "privhex")) = false := by
  refine ⟨by decide, rfl, by decide⟩



/-- Inversion: the unit path fails with `Invalid signature` exactly when the
proof's JWT parses through all earlier stages and the learned `verify`
capability rejects the signing input recomputed from the token's own
segments.  The right-hand side depends only on the proof's `jwt` value and
the capabilities. -/
theorem unit_invalid_sig_iff (caps : Caps) (cred : JsObj)
    (opts : CredentialVerifyOptions) (now : Int) :
    Credential.verifyJWTProof caps cred opts now = .fail "Invalid signature" ↔
    ∃ jwtStr hB pB sg dec payload issV vf,
      jsPropU (objGet cred "proof") "jwt" = .ok (some (.str jwtStr)) ∧
      jsSplit jwtStr '.' = [hB, pB, sg] ∧
      base64urlDecode pB = some dec ∧
      jsonParse dec = some payload ∧
      jsProp payload "iss" = .ok issV ∧
      caps.verify = some vf ∧ caps.getPublicKey = true ∧
      vf (hB ++ "." ++ pB) sg = false := by
  constructor
  · intro h
    simp only [Credential.verifyJWTProof] at h
    split at h
    next e heq =>
      exact absurd (by simpa using h) (fvj_ne e "Invalid signature" (by decide))
    next jwtV heq =>
      split at h
      next ht => exact absurd h (by decide)
      next ht =>
        split at h
        next jwtStr =>
          split at h
          next hlen => exact absurd h (by decide)
          next hlen =>
            split at h
            next hB pB sg rest heq2 =>
              have hrest : rest = [] := by
                rw [heq2] at hlen
                simpa using hlen
              subst hrest
              split at h
              next => exact absurd h (by decide)
              next dec heq3 =>
                split at h
                next => exact absurd h (by decide)
                next payload heq4 =>
                  split at h
                  next e heq5 =>
                    exact absurd (by simpa using h)
                      (fpj_ne e "Invalid signature" (by decide))
                  next issV heq5 =>
                    split at h
                    next vf hv hg =>
                      split at h
                      next hsg =>
                        refine ⟨jwtStr, hB, pB, sg, dec, payload, issV, vf,
                          heq, heq2, heq3, heq4, heq5, hv, hg, ?_⟩
                        simpa using hsg
                      next hsg =>
                        iterate 12 (all_goals try (split at h))
                        all_goals first
                          | exact absurd h (by decide)
                          | (simp only [Result.fail.injEq] at h
                             first
                              | exact absurd h (fpj_ne _ "Invalid signature" (by decide))
                              | exact absurd h (jpf_ne _ "Invalid signature" (by decide))
                              | exact absurd h (ui_ne _ "Invalid signature" (by decide)))
                          | simp at h
                    next h1 h2 => exact absurd h (by decide)
            next => exact absurd h (by decide)
        next jwtV hne => exact absurd h (by decide)
        next => exact absurd h (by decide)
  · rintro ⟨jwtStr, hB, pB, sg, dec, payload, issV, vf,
      h1, h2, h3, h4, h5, h6, h7, h8⟩
    have hne : jwtStr ≠ "" := by
      rintro rfl
      rw [show jsSplit "" '.' = [""] from rfl] at h2
      simp at h2
    simp only [Credential.verifyJWTProof, h1, h2, h3, h4, h5, h6, h7, h8,
      jsTruthyU, jsTruthy]
    simp [hne]



/-- Inversion for the pure path: `Invalid signature` arises exactly when the
token parses and `Key.verify` rejects the recomputed signing input. -/
theorem pure_invalid_sig_iff (cred : JsObj) (k : Key)
    (opts : CredentialVerifyOptions) (now : Int) :
    verifyJWTProof cred k opts now = .fail "Invalid signature" ↔
    ∃ jwtStr hB pB sg dec payload issV,
      jsPropU (objGet cred "proof") "jwt" = .ok (some (.str jwtStr)) ∧
      jsSplit jwtStr '.' = [hB, pB, sg] ∧
      base64urlDecode pB = some dec ∧
      jsonParse dec = some payload ∧
      jsProp payload "iss" = .ok issV ∧
      k.verify (hB ++ "." ++ pB) sg = false := by
  constructor
  · intro h
    simp only [verifyJWTProof] at h
    split at h
    next e heq =>
      exact absurd (by simpa using h) (fvj_ne e "Invalid signature" (by decide))
    next jwtV heq =>
      split at h
      next ht => exact absurd h (by decide)
      next ht =>
        split at h
        next jwtStr =>
          split at h
          next hlen => exact absurd h (by decide)
          next hlen =>
            split at h
            next hB pB sg rest heq2 =>
              have hrest : rest = [] := by
                rw [heq2] at hlen
                simpa using hlen
              subst hrest
              split at h
              next => exact absurd h (by decide)
              next dec heq3 =>
                split at h
                next => exact absurd h (by decide)
                next payload heq4 =>
                  split at h
                  next e heq5 =>
                    exact absurd (by simpa using h)
                      (fpj_ne e "Invalid signature" (by decide))
                  next issV heq5 =>
                    split at h
                    next hsg =>
                      refine ⟨jwtStr, hB, pB, sg, dec, payload, issV,
                        heq, heq2, heq3, heq4, heq5, ?_⟩
                      simpa using hsg
                    next hsg =>
                      iterate 12 (all_goals try (split at h))
                      all_goals first
                        | exact absurd h (by decide)
                        | (simp only [Result.fail.injEq] at h
                           first
                            | exact absurd h (fpj_ne _ "Invalid signature" (by decide))
                            | exact absurd h (ui_ne _ "Invalid signature" (by decide)))
                        | simp at h
            next => exact absurd h (by decide)
        next jwtV hne => exact absurd h (by decide)
        next => exact absurd h (by decide)
  · rintro ⟨jwtStr, hB, pB, sg, dec, payload, issV, h1, h2, h3, h4, h5, h8⟩
    have hne : jwtStr ≠ "" := by
      rintro rfl
      rw [show jsSplit "" '.' = [""] from rfl] at h2
      simp at h2
    simp only [verifyJWTProof, h1, h2, h3, h4, h5, h8, jsTruthyU, jsTruthy]
    simp [hne]

/-- C5: the signature check re-derives its input from the proof JWT's own
segments: two credentials carrying the same `proof.jwt` value are accepted
or rejected identically by the signature-check step — whatever their other
fields, the options, or the clock — on the unit path and on the pure path. -/
theorem sig_check_uses_only_proof_jwt (caps : Caps) (cred1 cred2 : JsObj) (k : Key)
    (o1 o2 : CredentialVerifyOptions) (t1 t2 : Int)
    (hjwt : jsPropU (objGet cred1 "proof") "jwt" = jsPropU (objGet cred2 "proof") "jwt") :
    ((Credential.verifyJWTProof caps cred1 o1 t1 = .fail "Invalid signature") ↔
      (Credential.verifyJWTProof caps cred2 o2 t2 = .fail "Invalid signature")) ∧
    ((verifyJWTProof cred1 k o1 t1 = .fail "Invalid signature") ↔
      (verifyJWTProof cred2 k o2 t2 = .fail "Invalid signature")) := by
  constructor
  · rw [unit_invalid_sig_iff, unit_invalid_sig_iff, hjwt]
  · rw [pure_invalid_sig_iff, pure_invalid_sig_iff, hjwt]

/-- Witness for C5: the same proof under two different outer credentials. -/
theorem sig_check_uses_only_proof_jwt_witness :
    ((Credential.verifyJWTProof exCaps
        [("proof", some (Json.obj (.cons "jwt" (.str "x.y.z") .nil)))] {} 0
        = .fail "Invalid signature") ↔
      (Credential.verifyJWTProof exCaps
        [("proof", some (Json.obj (.cons "jwt" (.str "x.y.z") .nil))),
         ("extra", some Json.null)] {} 1
        = .fail "Invalid signature")) ∧
    ((verifyJWTProof [("proof", some (Json.obj (.cons "jwt" (.str "x.y.z") .nil)))]
        exKey {} 0 = .fail "Invalid signature") ↔
      (verifyJWTProof [("proof", some (Json.obj (.cons "jwt" (.str "x.y.z") .nil))),
         ("extra", some Json.null)] exKey {} 1 = .fail "Invalid signature")) :=
  sig_check_uses_only_proof_jwt exCaps
    [("proof", some (Json.obj (.cons "jwt" (.str "x.y.z") .nil)))]
    [("proof", some (Json.obj (.cons "jwt" (.str "x.y.z") .nil))),
     ("extra", some Json.null)] exKey {} {} 0 1 rfl

/-- C2 (amended): whenever the unit path verifies a credential, every key of
the decoded `vc` claim was compared — `JSON.stringify` of the credential's
field (proof removed) equals that of the claim's field; only those keys are
bound, so a mismatch on any of them fails verification, while fields
without a counterpart in the `vc` claim are unconstrained. -/
theorem verify_success_binds_vc_claim_fields (caps : Caps) (cred : JsObj)
    (opts : CredentialVerifyOptions) (now : Int)
    (hsucc : (Credential.verifyJWTProof caps cred opts now).isSuccess = true) :
    ∃ jwtStr hB pB sg dec payload vcJ,
      jsPropU (objGet cred "proof") "jwt" = .ok (some (.str jwtStr)) ∧
      jsSplit jwtStr '.' = [hB, pB, sg] ∧
      base64urlDecode pB = some dec ∧
      jsonParse dec = some payload ∧
      jsProp payload "vc" = .ok (some vcJ) ∧
      ∀ kv ∈ jsEntries vcJ,
        stringifyU (objGet (objRemove cred "proof") kv.1) = some (jsonStringify kv.2) := by
  simp only [Credential.verifyJWTProof] at hsucc
  split at hsucc
  next e heq => simp [Result.isSuccess, Result.success] at hsucc
  next jwtV heq =>
    split at hsucc
    next ht => simp [Result.isSuccess, Result.success] at hsucc
    next ht =>
      split at hsucc
      next jwtStr =>
        split at hsucc
        next hlen => simp [Result.isSuccess, Result.success] at hsucc
        next hlen =>
          split at hsucc
          next hB pB sg rest heq2 =>
            have hrest : rest = [] := by
              rw [heq2] at hlen
              simpa using hlen
            subst hrest
            split at hsucc
            next => simp [Result.isSuccess, Result.success] at hsucc
            next dec heq3 =>
              split at hsucc
              next => simp [Result.isSuccess, Result.success] at hsucc
              next payload heq4 =>
                split at hsucc
                next e heq5 => simp [Result.isSuccess, Result.success] at hsucc
                next issV heq5 =>
                  split at hsucc
                  next vf hv hg =>
                    split at hsucc
                    next hsg => simp [Result.isSuccess, Result.success] at hsucc
                    next hsg =>
                      split at hsucc
                      next e heqvc => simp [Result.isSuccess, Result.success] at hsucc
                      next vcV heqvc =>
                        split at hsucc
                        next hvt => simp [Result.isSuccess, Result.success] at hsucc
                        next hvt =>
                          split at hsucc
                          next vcJ =>
                            split at hsucc
                            next badKey heqfl =>
                              simp [Result.isSuccess, Result.success] at hsucc
                            next heqfl =>
                              exact ⟨jwtStr, hB, pB, sg, dec, payload, vcJ,
                                heq, heq2, heq3, heq4, heqvc,
                                (fieldLoop_eq_none _ _).mp heqfl⟩
                          next => simp [Result.isSuccess, Result.success] at hsucc
                  next h1 h2 => simp [Result.isSuccess, Result.success] at hsucc
          next => simp [Result.isSuccess, Result.success] at hsucc
      next jwtV hne => simp [Result.isSuccess, Result.success] at hsucc
      next => simp [Result.isSuccess, Result.success] at hsucc



/-- C4 (amended): the unit path reports `Credential has expired` only when
expiration checking is not disabled and the decoded, truthy `exp` claim
coerces under `ToNumber` to a number strictly below
`Math.floor(Date.now() / 1000)` — a second-granularity comparison.  Hence
(for the numeric `exp` claims the issuance pipeline writes) a credential
expiring exactly now passes, any instant within the same second past the
expiration (a microsecond, a millisecond) still passes, and a credential
without an `exp` claim never expires. -/
theorem expired_fail_needs_full_second (caps : Caps) (cred : JsObj)
    (opts : CredentialVerifyOptions) (now : Int)
    (hfail : Credential.verifyJWTProof caps cred opts now = .fail "Credential has expired") :
    opts.checkExpiration ≠ some false ∧
    ∃ jwtStr hB pB sg dec payload j e,
      jsPropU (objGet cred "proof") "jwt" = .ok (some (.str jwtStr)) ∧
      jsSplit jwtStr '.' = [hB, pB, sg] ∧
      base64urlDecode pB = some dec ∧
      jsonParse dec = some payload ∧
      jsProp payload "exp" = .ok (some j) ∧
      jsTruthy j = true ∧
      jsToNumber j = some e ∧ e < Int.fdiv now 1000 := by
  simp only [Credential.verifyJWTProof] at hfail
  split at hfail
  next e heq =>
    exact absurd (by simpa using hfail) (fvj_ne e "Credential has expired" (by decide))
  next jwtV heq =>
    split at hfail
    next ht => exact absurd hfail (by decide)
    next ht =>
      split at hfail
      next jwtStr =>
        split at hfail
        next hlen => exact absurd hfail (by decide)
        next hlen =>
          split at hfail
          next hB pB sg rest heq2 =>
            have hrest : rest = [] := by
              rw [heq2] at hlen
              simpa using hlen
            subst hrest
            split at hfail
            next => exact absurd hfail (by decide)
            next dec heq3 =>
              split at hfail
              next => exact absurd hfail (by decide)
              next payload heq4 =>
                split at hfail
                next e heq5 =>
                  exact absurd (by simpa using hfail)
                    (fpj_ne e "Credential has expired" (by decide))
                next issV heq5 =>
                  split at hfail
                  next vf hv hg =>
                    split at hfail
                    next hsg => exact absurd hfail (by decide)
                    next hsg =>
                      split at hfail
                      next e heqvc =>
                        exact absurd (by simpa using hfail)
                          (fpj_ne e "Credential has expired" (by decide))
                      next vcV heqvc =>
                        split at hfail
                        next hvt => exact absurd hfail (by decide)
                        next hvt =>
                          split at hfail
                          next vcJ =>
                            split at hfail
                            next badKey heqfl =>
                              exact absurd (by simpa using hfail)
                                (jpf_ne badKey "Credential has expired" (by decide))
                            next heqfl =>
                              split at hfail
                              next hreq => exact absurd hfail (by decide)
                              next hreq =>
                                split at hfail
                                next e heqexp =>
                                  exact absurd (by simpa using hfail)
                                    (fpj_ne e "Credential has expired" (by decide))
                                next expV heqexp =>
                                  split at hfail
                                  next hc =>
                                    simp only [Bool.and_eq_true] at hc
                                    obtain ⟨⟨ha, hb⟩, hgt⟩ := hc
                                    have ha' : opts.checkExpiration ≠ some false := by
                                      intro hx
                                      rw [hx] at ha
                                      simp at ha
                                    rcases expV with _ | j
                                    · simp [jsGtNum] at hgt
                                    · rcases hn : jsToNumber j with _ | e
                                      · simp only [jsGtNum, hn] at hgt
                                        exact absurd hgt (by decide)
                                      · refine ⟨ha', jwtStr, hB, pB, sg, dec, payload, j, e,
                                          heq, heq2, heq3, heq4, heqexp, ?_, hn, ?_⟩
                                        · simpa [jsTruthyU] using hb
                                        · simp only [jsGtNum, hn] at hgt
                                          simpa using hgt
                                  next hc =>
                                    iterate 8 (all_goals try (split at hfail))
                                    all_goals first
                                      | exact absurd hfail (by decide)
                                      | (simp only [Result.fail.injEq] at hfail
                                         first
                                          | exact absurd hfail
                                              (fpj_ne _ "Credential has expired" (by decide))
                                          | exact absurd hfail
                                              (ui_ne _ "Credential has expired" (by decide)))
                                      | simp at hfail
                          next => exact absurd hfail (by decide)
                  next h1 h2 => exact absurd hfail (by decide)
          next => exact absurd hfail (by decide)
      next jwtV hne => exact absurd hfail (by decide)
      next => exact absurd hfail (by decide)



/-- C9: the field-binding loop visits only keys of the signed `vc` claim, and
a successfully verifying credential defines a matching field for each of
them; a brand-new field (undefined at issuance, hence absent from the `vc`
claim) can be added to the credential afterwards and the unit path still
verifies — tampering by addition goes undetected. -/
theorem added_field_goes_undetected (caps : Caps) (cred : JsObj)
    (opts : CredentialVerifyOptions) (now : Int) (k : String) (v : Json)
    (hsucc : (Credential.verifyJWTProof caps cred opts now).isSuccess = true)
    (hnew : objGet cred k = none) :
    (Credential.verifyJWTProof caps (objSet cred k (some v)) opts now).isSuccess = true := by
  simp only [Credential.verifyJWTProof] at hsucc
  split at hsucc
  next e heq => simp [Result.isSuccess, Result.success] at hsucc
  next jwtV heq =>
    split at hsucc
    next ht => simp [Result.isSuccess, Result.success] at hsucc
    next ht =>
      split at hsucc
      next jwtStr =>
        split at hsucc
        next hlen => simp [Result.isSuccess, Result.success] at hsucc
        next hlen =>
          split at hsucc
          next hB pB sg rest heq2 =>
            have hrest : rest = [] := by
              rw [heq2] at hlen
              simpa using hlen
            subst hrest
            split at hsucc
            next => simp [Result.isSuccess, Result.success] at hsucc
            next dec heq3 =>
              split at hsucc
              next => simp [Result.isSuccess, Result.success] at hsucc
              next payload heq4 =>
                split at hsucc
                next e heq5 => simp [Result.isSuccess, Result.success] at hsucc
                next issV heq5 =>
                  split at hsucc
                  next vf hv hg =>
                    split at hsucc
                    next hsg => simp [Result.isSuccess, Result.success] at hsucc
                    next hsg =>
                      split at hsucc
                      next e heqvc => simp [Result.isSuccess, Result.success] at hsucc
                      next vcV heqvc =>
                        split at hsucc
                        next hvt => simp [Result.isSuccess, Result.success] at hsucc
                        next hvt =>
                          split at hsucc
                          next vcJ =>
                            split at hsucc
                            next badKey heqfl =>
                              simp [Result.isSuccess, Result.success] at hsucc
                            next heqfl =>
                              split at hsucc
                              next hreq => simp [Result.isSuccess, Result.success] at hsucc
                              next hreq =>
                                split at hsucc
                                next e heqexp =>
                                  simp [Result.isSuccess, Result.success] at hsucc
                                next expV heqexp =>
                                  split at hsucc
                                  next hexpg =>
                                    simp [Result.isSuccess, Result.success] at hsucc
                                  next hexpg =>
                                    split at hsucc
                                    next hissg =>
                                      simp [Result.isSuccess, Result.success] at hsucc
                                    next hissg =>
                                      split at hsucc
                                      next e heqh =>
                                        simp [Result.isSuccess, Result.success] at hsucc
                                      next holderV heqh =>
                                        split at hsucc
                                        next e heqid =>
                                          simp [Result.isSuccess, Result.success] at hsucc
                                        next subjV heqid =>
                                          have hkp : k ≠ "proof" := by
                                            intro hx
                                            rw [hx] at hnew
                                            rw [hnew] at heq
                                            simp [jsPropU] at heq
                                          have hp' : objGet (objSet cred k (some v)) "proof"
                                              = objGet cred "proof" :=
                                            objGet_objSet_ne _ _ _ _ hkp
                                          have hcsne : objGet cred "credentialSubject" ≠ none := by
                                            intro hx
                                            rw [hx] at heqh
                                            simp [jsPropU] at heqh
                                          have hkcs : k ≠ "credentialSubject" := by
                                            intro hx
                                            rw [hx] at hnew
                                            exact hcsne hnew
                                          have hcs' : objGet (objSet cred k (some v)) "credentialSubject"
                                              = objGet cred "credentialSubject" :=
                                            objGet_objSet_ne _ _ _ _ hkcs
                                          have hof : ∀ (a b c : Bool),
                                              ¬((!a || !b || !c) = true) →
                                              a = true ∧ b = true ∧ c = true := by decide
                                          obtain ⟨hid, his, hisd⟩ := hof _ _ _ hreq
                                          rw [objGet_objRemove, if_neg (by decide)] at hid his hisd
                                          have hidk : k ≠ "id" := by
                                            intro hx
                                            rw [hx] at hnew
                                            rw [hnew] at hid
                                            simp [jsTruthyU] at hid
                                          have hisk : k ≠ "issuer" := by
                                            intro hx
                                            rw [hx] at hnew
                                            rw [hnew] at his
                                            simp [jsTruthyU] at his
                                          have hisdk : k ≠ "issuanceDate" := by
                                            intro hx
                                            rw [hx] at hnew
                                            rw [hnew] at hisd
                                            simp [jsTruthyU] at hisd
                                          have heqfl' : fieldLoop (jsEntries vcJ)
                                              (objRemove (objSet cred k (some v)) "proof") = none := by
                                            rw [fieldLoop_eq_none]
                                            intro kv hmem
                                            have hkv := (fieldLoop_eq_none _ _).mp heqfl kv hmem
                                            by_cases hkvp : kv.1 = "proof"
                                            · rw [hkvp, objGet_objRemove] at hkv
                                              simp [stringifyU] at hkv
                                            · have hkvk : k ≠ kv.1 := by
                                                intro hx
                                                rw [← hx] at hkv
                                                rw [objGet_objRemove, if_neg hkp, hnew] at hkv
                                                simp [stringifyU] at hkv
                                              rw [objGet_objRemove, if_neg hkvp,
                                                objGet_objSet_ne _ _ _ _ hkvk]
                                              rw [objGet_objRemove, if_neg hkvp] at hkv
                                              exact hkv
                                          have hidT : jsTruthyU (objGet (objRemove (objSet cred k (some v)) "proof") "id") = true := by
                                            rw [objGet_objRemove, if_neg (by decide),
                                              objGet_objSet_ne _ _ _ _ hidk]
                                            exact hid
                                          have hisT : jsTruthyU (objGet (objRemove (objSet cred k (some v)) "proof") "issuer") = true := by
                                            rw [objGet_objRemove, if_neg (by decide),
                                              objGet_objSet_ne _ _ _ _ hisk]
                                            exact his
                                          have hisdT : jsTruthyU (objGet (objRemove (objSet cred k (some v)) "proof") "issuanceDate") = true := by
                                            rw [objGet_objRemove, if_neg (by decide),
                                              objGet_objSet_ne _ _ _ _ hisdk]
                                            exact hisd
                                          have htS : jsTruthyU (some (Json.str jwtStr)) = true := by
                                            simpa using ht
                                          have hsgS : vf (hB ++ "." ++ pB) sg = true := by
                                            simpa using hsg
                                          have hvtS : jsTruthyU (some vcJ) = true := by
                                            simpa using hvt
                                          have hexpF : (opts.checkExpiration != some false
                                              && jsTruthyU expV
                                              && jsGtNum (Int.fdiv now 1000) expV) = false := by
                                            simpa using hexpg
                                          have hissF : (match opts.expectedIssuer with
                                              | some expIss =>
                                                expIss != "" && !(issV == some (Json.str expIss))
                                              | none => false) = false := by
                                            simpa using hissg
                                          simp [Credential.verifyJWTProof, hp', heq, htS, heq2,
                                            heq3, heq4, heq5, hv, hg, hsgS, heqvc, hvtS, heqfl',
                                            hidT, hisT, hisdT, heqexp, hexpF, hissF, hcs', heqh,
                                            heqid, Result.isSuccess, Result.success]
                                          all_goals rw [if_neg hissg]
                          next => simp [Result.isSuccess, Result.success] at hsucc
                  next h1 h2 => simp [Result.isSuccess, Result.success] at hsucc
          next => simp [Result.isSuccess, Result.success] at hsucc
      next jwtV hne => simp [Result.isSuccess, Result.success] at hsucc
      next => simp [Result.isSuccess, Result.success] at hsucc



/-- Witness for C2: the scenario credential satisfies the binding. -/
theorem verify_success_binds_vc_claim_fields_witness :
    ∃ jwtStr hB pB sg dec payload vcJ,
      jsPropU (objGet exCred "proof") "jwt" = .ok (some (.str jwtStr)) ∧
      jsSplit jwtStr '.' = [hB, pB, sg] ∧
      base64urlDecode pB = some dec ∧
      jsonParse dec = some payload ∧
      jsProp payload "vc" = .ok (some vcJ) ∧
      ∀ kv ∈ jsEntries vcJ,
        stringifyU (objGet (objRemove exCred "proof") kv.1) = some (jsonStringify kv.2) :=
  verify_success_binds_vc_claim_fields exCaps exCred {} 0 (by decide)

/-- Counterexample to C2 as stated: `meta` was undefined at issuance, so
`JSON.stringify` dropped it from the signed `vc` claim; overwriting it
afterwards is a mutation of a non-`proof` field that still verifies. -/
theorem meta_tamper_goes_unnoticed :
    exIssue.isSuccess = true ∧
    objGet (objSet exCred "meta" (some (.str "tampered"))) "meta" ≠ objGet exCred "meta" ∧
    (Credential.verifyCredential exCaps
      (objSet exCred "meta" (some (.str "tampered"))) {} 0).isSuccess = true := by
  refine ⟨by decide, by decide, by decide⟩

/-- Witness for C4: at 11000 ms the ten-second credential is expired. -/
theorem expired_fail_needs_full_second_witness :
    ({} : CredentialVerifyOptions).checkExpiration ≠ some false ∧
    ∃ jwtStr hB pB sg dec payload j e,
      jsPropU (objGet exCredExp "proof") "jwt" = .ok (some (.str jwtStr)) ∧
      jsSplit jwtStr '.' = [hB, pB, sg] ∧
      base64urlDecode pB = some dec ∧
      jsonParse dec = some payload ∧
      jsProp payload "exp" = .ok (some j) ∧
      jsTruthy j = true ∧
      jsToNumber j = some e ∧ e < Int.fdiv 11000 1000 :=
  expired_fail_needs_full_second exCaps exCredExp {} 11000 (by decide)

/-- Counterexample to C4 as stated: the credential expires at 10000 ms; at
10001 ms — a millisecond (so in particular any microsecond) past — it still
verifies, and only from the next full second (11000 ms) does it fail. -/
theorem millisecond_past_expiry_still_verifies :
    objGet exCredExp "expirationDate" = some (.str "1970-01-01T00:00:10Z") ∧
    jsDateGetTime "1970-01-01T00:00:10Z" = some 10000 ∧
    (Credential.verifyCredential exCaps exCredExp {} 10001).isSuccess = true ∧
    (Credential.verifyCredential exCaps exCredExp {} 11000).isSuccess = false := by
  refine ⟨by decide, by decide, by decide, by decide⟩

/-- Witness for C9: adding a `note` field to the verified scenario
credential leaves verification succeeding. -/
theorem added_field_goes_undetected_witness :
    (Credential.verifyJWTProof exCaps
      (objSet exCred "note" (some (.str "added"))) {} 0).isSuccess = true :=
  added_field_goes_undetected exCaps exCred {} 0 "note" (.str "added")
    (by decide) (by decide)

end Synet
